import Mathlib

/-! Verification of the assignment-synchronization adapter of the swappy
drag-and-swap library.  The development shallowly embeds the relevant source
functions in two layers:

* a flat model of the slot/item DOM contents (each slot element's child list)
  together with the SwapEvent handler and Swapy._applyOrder;
* a tree model of the markup together with validate, addVeloxiDataAttributes,
  resyncItems, the registry builders and the MutationObserver callback.

JS element references are modelled by natural-number identities, JS strings by
String, and JS Map (and the element dataset) by insertion-ordered association
lists whose set operation updates in place or appends, exactly as JS does. -/

set_option maxRecDepth 4000

namespace Swappy

/-- A JS string-or-null value: none models the JS null value. -/
abbrev JVal := Option String

/-- An AssignmentMap: a JS Map from slot id to item id or null, kept in
insertion order as an association list (a JS Map never holds duplicate keys). -/
abbrev AMap := List (String × JVal)

/-- m.get(k) on a JS Map: the outer none models JS undefined (key absent),
some none models a stored null. -/
def jsGet (m : AMap) (k : String) : Option JVal := m.lookup k

/-- prev?.get(k): optional chaining evaluates to undefined when prev is unset. -/
def prevGet (prev : Option AMap) (k : String) : Option JVal :=
  match prev with
  | none => none
  | some pm => jsGet pm k

/-- Modelled from the spec: mapsAreEqual is imported from ./utils, a module
that is not among the available sources.  Per the spec it decides
value-set-equality: the two maps hold the same key-to-value pairs, with map
key order irrelevant. -/
def mapsAreEqual (a b : AMap) : Bool :=
  a.all (fun p => b.contains p) && b.all (fun p => a.contains p)

/-- An element reference, identified (as in JS) by object identity. -/
abbrev EId := Nat

/-- The part of the DOM state Swapy._applyOrder can touch: for every slot
element, its list of child elements (in order). -/
abbrev Dom := List (EId × List EId)

/-- The current children of a slot element (none when the element is not a
slot tracked by the state). -/
def domGet (d : Dom) (e : EId) : Option (List EId) := d.lookup e

/-- slot.innerHTML = two quotes: removes every child of that slot element. -/
def clearSlot (d : Dom) (slot : EId) : Dom :=
  d.map (fun p => if p.1 == slot then (p.1, []) else p)

/-- slot.appendChild(item): first detaches the item element from whichever
parent currently holds it, then appends it to the slot's children. -/
def appendChild (d : Dom) (slot item : EId) : Dom :=
  ((d.map (fun p => (p.1, p.2.filter (fun c => c != item)))).map
    (fun p => if p.1 == slot then (p.1, p.2 ++ [item]) else p))

/-- The swap event payload: the candidate AssignmentMap plus the
engine-defined metadata the event carries. -/
structure SwapEvt where
  map : AMap
  meta : String

/-- The state of one Swapy instance that the event handlers read and write:
the two registries, the stored previousMap, whether a swap callback is
registered, and the DOM contents of the slots. -/
structure SwapyState where
  slotElMap : List (String × EId)
  itemElMap : List (String × EId)
  previousMap : Option AMap
  hasCallback : Bool
  dom : Dom

/-- One iteration of the forEach in Swapy._applyOrder:
skip when the candidate entry equals the previous entry (strict equality over
string/null/undefined), skip when the item name is falsy (undefined, null or
the empty string), skip when either registry lookup misses; otherwise clear
the slot element and append the item element. -/
def applyOrderStep (st : SwapyState) (m : AMap) (d : Dom) (slotName : String) : Dom :=
  if jsGet m slotName == prevGet st.previousMap slotName then d
  else
    match jsGet m slotName with
    | none => d
    | some none => d
    | some (some itName) =>
      if itName == "" then d
      else
        match st.slotElMap.lookup slotName, st.itemElMap.lookup itName with
        | some slot, some item => appendChild (clearSlot d slot) slot item
        | some _, none => d
        | none, _ => d

/-- Swapy._applyOrder: iterate over the candidate map's keys in insertion
order (Array.from(map.keys()).forEach). -/
def applyOrder (st : SwapyState) (m : AMap) : Dom :=
  (m.map Prod.fst).foldl (applyOrderStep st m) st.dom

/-- The suppression test at the top of the SwapEvent handler:
this._previousMap && mapsAreEqual(this._previousMap, event.data.map). -/
def suppressed (st : SwapyState) (m : AMap) : Bool :=
  match st.previousMap with
  | some pm => mapsAreEqual pm m
  | none => false

/-- The SwapEvent handler: if suppressed, nothing happens; otherwise apply
the order (diffing against the old previousMap), invoke the callback when one
is registered, and store the candidate as the new previousMap.  The second
component lists the callback invocations, each carrying the full event. -/
def handleSwapEvent (st : SwapyState) (ev : SwapEvt) : SwapyState × List SwapEvt :=
  if suppressed st ev.map then (st, [])
  else
    (⟨st.slotElMap, st.itemElMap, some ev.map, st.hasCallback, applyOrder st ev.map⟩,
     if st.hasCallback then [ev] else [])

/-- The InitEvent handler stores the baseline map without touching the DOM. -/
def handleInitEvent (st : SwapyState) (m : AMap) : SwapyState :=
  ⟨st.slotElMap, st.itemElMap, some m, st.hasCallback, st.dom⟩

/-- Proof-side characterization of one applyOrder iteration: none when the
iteration skips, some (slot element, item element) when it clears-and-appends.
Note the outcome does not depend on the DOM state. -/
def stepAction (st : SwapyState) (m : AMap) (slotName : String) : Option (EId × EId) :=
  if jsGet m slotName == prevGet st.previousMap slotName then none
  else
    match jsGet m slotName with
    | none => none
    | some none => none
    | some (some itName) =>
      if itName == "" then none
      else
        match st.slotElMap.lookup slotName, st.itemElMap.lookup itName with
        | some slot, some item => some (slot, item)
        | some _, none => none
        | none, _ => none

/-- The per-entry effect of clear-then-append on one tracked slot: the target
slot ends with exactly the item, every other slot merely loses the item if it
held it. -/
def opEntry (slot item : EId) (p : EId × List EId) : EId × List EId :=
  if p.1 == slot then (p.1, [item]) else (p.1, p.2.filter (fun c => c != item))

/-- Clear-then-append as a pointwise map over the tracked slots. -/
def opSI (slot item : EId) (d : Dom) : Dom := d.map (opEntry slot item)

/-! ### Tree model of the markup -/

mutual
/-- A DOM element for the tree-level operations: its JS reference identity,
its dataset (insertion-ordered key/value list) and its element children. -/
inductive VElem where
  | mk (eid : Nat) (dataset : List (String × String)) (children : VForest)
/-- A list of sibling elements (a separate type so that the tree recursions
are structural and compute definitionally). -/
inductive VForest where
  | nil
  | cons (head : VElem) (tail : VForest)
end

/-- The reference identity of an element. -/
def VElem.eid : VElem → Nat
  | .mk i _ _ => i

/-- The dataset of an element. -/
def VElem.dataset : VElem → List (String × String)
  | .mk _ d _ => d

/-- The element children of an element. -/
def VElem.children : VElem → VForest
  | .mk _ _ cs => cs

/-- A forest as a plain list of its top-level elements. -/
def VForest.toList : VForest → List VElem
  | .nil => []
  | .cons e rest => e :: rest.toList

/-- Build a forest from a list of elements (fixture notation helper). -/
def VForest.ofList : List VElem → VForest
  | [] => .nil
  | e :: rest => .cons e (VForest.ofList rest)

/-- The direct element children of an element, as a list. -/
def VElem.childList (e : VElem) : List VElem := e.children.toList

/-- JS assignment into a keyed collection (Map.set, dataset assignment):
update the value in place when the key is present, append otherwise. -/
def mapSet {β : Type} (m : List (String × β)) (k : String) (v : β) : List (String × β) :=
  if m.any (fun p => p.1 == k) then m.map (fun p => if p.1 == k then (k, v) else p)
  else m ++ [(k, v)]

/-- dataset.x read: none when the data attribute is absent. -/
def getAttr (e : VElem) (k : String) : Option String := e.dataset.lookup k

/-- Whether the data attribute is present (the CSS attribute selector). -/
def hasAttr (e : VElem) (k : String) : Bool := (getAttr e k).isSome

/-- All elements of a forest in document order (each node before its
descendants); root.querySelectorAll visits exactly descF root.children. -/
def descF : VForest → List VElem
  | .nil => []
  | .cons (.mk i d cs) rest => .mk i d cs :: (descF cs ++ descF rest)

/-- The dataset of the first element (in document order) of a forest carrying
the given reference identity. -/
def datasetAtF : VForest → Nat → Option (List (String × String))
  | .nil, _ => none
  | .cons (.mk i d cs) rest, y =>
    if i == y then some d
    else
      match datasetAtF cs y with
      | some r => some r
      | none => datasetAtF rest y

/-- Set a data attribute on every element of a forest carrying the given
reference identity (with unique identities: on that one element). -/
def setAttrAtF : VForest → Nat → String → String → VForest
  | .nil, _, _, _ => .nil
  | .cons (.mk i d cs) rest, x, k, v =>
    .cons (.mk i (if i == x then mapSet d k v else d) (setAttrAtF cs x k v))
      (setAttrAtF rest x k v)

/-- Set a data attribute on the descendant of the root with the given
identity (all stamped targets are strict descendants, as querySelectorAll
never matches the root itself). -/
def setAttrAt (t : VElem) (x : Nat) (k v : String) : VElem :=
  .mk t.eid t.dataset (setAttrAtF t.children x k v)

/-- The dataset of the root's descendant with the given identity. -/
def datasetAt (t : VElem) (y : Nat) : Option (List (String × String)) :=
  datasetAtF t.children y

/-- One diagnostic per console.error call in validate, tagged with the index
of the offending slot in the traversal order. -/
inductive Diag where
  | noSlots
  | missingSlotId (idx : Nat)
  | multiChild (idx : Nat)
  | unlabeledChild (idx : Nat)
deriving DecidableEq

/-- root.querySelectorAll carrying the data-swapy-slot attribute. -/
def slotEls (root : VElem) : List VElem :=
  (descF root.children).filter (fun e => hasAttr e "swapySlot")

/-- The check !slotId || slotId.length === 0 (absent attribute or empty id). -/
def slotIdBad (s : VElem) : Bool := (getAttr s "swapySlot").getD "" == ""

/-- The check slotChildren.length > 1. -/
def multiChildBad (s : VElem) : Bool := decide (s.childList.length > 1)

/-- The check on slotChildren[0]: present but with absent or empty
data-swapy-item. -/
def childLabelBad (s : VElem) : Bool :=
  match s.childList.head? with
  | some c => (getAttr c "swapyItem").getD "" == ""
  | none => false

/-- Whether one slot passes all three per-slot checks. -/
def slotOk (s : VElem) : Bool := !slotIdBad s && !multiChildBad s && !childLabelBad s

/-- The diagnostics the three per-slot checks emit for one slot. -/
def slotDiags (i : Nat) (s : VElem) : List Diag :=
  (if slotIdBad s then [Diag.missingSlotId i] else []) ++
    (if multiChildBad s then [Diag.multiChild i] else []) ++
      (if childLabelBad s then [Diag.unlabeledChild i] else [])

/-- validate(root): the isValid verdict accumulated across the zero-slot
check and the per-slot checks, together with every diagnostic emitted, in
program order and with no early exit. -/
def validate (root : VElem) : Bool × List Diag :=
  (slotEls root).enum.foldl
    (fun acc p => (acc.1 && slotOk p.2, acc.2 ++ slotDiags p.1 p.2))
    (if (slotEls root).length == 0 then (false, [Diag.noSlots]) else (true, []))

/-- The validity condition exactly as the specification states it: at least
one slot, every slot with a non-empty slot id, at most one direct child, and
any present direct child carrying a non-empty item id. -/
def specValidMarkup (root : VElem) : Prop :=
  slotEls root ≠ [] ∧ ∀ s ∈ slotEls root,
    (getAttr s "swapySlot").getD "" ≠ "" ∧
      s.childList.length ≤ 1 ∧
        ∀ c ∈ s.childList, (getAttr c "swapyItem").getD "" ≠ ""

/-- The resolved configuration. -/
structure Config where
  animation : String
  continuousMode : Bool

/-- DEFAULT_CONFIG from the source. -/
def DEFAULT_CONFIG : Config := ⟨"dynamic", true⟩

/-- A user-supplied subset of the configuration. -/
structure UserConfig where
  animation : Option String
  continuousMode : Option Bool

/-- The spread (...DEFAULT_CONFIG, ...userConfig): user-present fields win. -/
def resolveConfig (u : UserConfig) : Config :=
  ⟨u.animation.getD DEFAULT_CONFIG.animation,
    u.continuousMode.getD DEFAULT_CONFIG.continuousMode⟩

/-- The identity of the first descendant of the item carrying
data-swapy-handle (item.querySelector, document order). -/
def handleEidOf (item : VElem) : Option Nat :=
  (((descF item.children).filter (fun e => hasAttr e "swapyHandle")).head?).map VElem.eid

/-- Identities of the item's descendants carrying data-swapy-text. -/
def textEidsOf (item : VElem) : List Nat :=
  ((descF item.children).filter (fun e => hasAttr e "swapyText")).map VElem.eid

/-- Identities of the item's descendants carrying data-swapy-exclude. -/
def exclEidsOf (item : VElem) : List Nat :=
  ((descF item.children).filter (fun e => hasAttr e "swapyExclude")).map VElem.eid

/-- The per-item body of the items.forEach in resyncItems: stamp the item
view and layout id, the first handle descendant, and every text and excluded
descendant.  The source reads data-swapy-* attributes and the child structure
through live element references; the model reads them through the snapshot
item, which is faithful because resyncItems never changes data-swapy-*
attributes or the tree structure. -/
def tagItem (t : VElem) (item : VElem) : VElem :=
  let t1 := setAttrAt t item.eid "velView" "item"
  let t2 := setAttrAt t1 item.eid "velLayoutId" ((getAttr item "swapyItem").getD "")
  let t3 :=
    match handleEidOf item with
    | some h => setAttrAt t2 h "velView" "handle"
    | none => t2
  let t4 := (textEidsOf item).foldl (fun acc x => setAttrAt acc x "velLayoutPosition" "") t3
  (exclEidsOf item).foldl (fun acc x => setAttrAt acc x "velIgnore" "") t4

/-- The elements the resyncItems query selects: item-marked descendants that
lack the data-vel-view marker. -/
def untaggedItems (root : VElem) : List VElem :=
  (descF root.children).filter (fun e => hasAttr e "swapyItem" && !(hasAttr e "velView"))

/-- resyncItems(root): tag every untagged item (and its handle, text and
excluded descendants) and report whether at least one was found. -/
def resyncItems (root : VElem) : VElem × Bool :=
  let items := untaggedItems root
  (items.foldl tagItem root, decide (items.length > 0))

/-- addVeloxiDataAttributes: stamp the root markers, then every slot, every
item (with its first handle descendant), every text element and every
excluded element under the root.  As in tagItem, immutable data-swapy-*
attributes are read through the initial snapshot. -/
def addVeloxiDataAttributes (root : VElem) (config : Config) (pluginKey : String) : VElem :=
  let d0 := mapSet root.dataset "velPluginKey" pluginKey
  let d1 := mapSet d0 "velPlugin" "Swapy"
  let d2 := mapSet d1 "velView" "root"
  let d3 := mapSet d2 "velDataConfigAnimation" config.animation
  let d4 := if config.continuousMode then mapSet d3 "velDataConfigContinuousMode" "true" else d3
  let r0 : VElem := .mk root.eid d4 root.children
  let slots := (descF r0.children).filter (fun e => hasAttr e "swapySlot")
  let r1 := (slots.map VElem.eid).foldl (fun t x => setAttrAt t x "velView" "slot") r0
  let items := (descF r0.children).filter (fun e => hasAttr e "swapyItem")
  let r2 := items.foldl (fun t itm =>
    let ta := setAttrAt t itm.eid "velView" "item"
    let tb := setAttrAt ta itm.eid "velLayoutId" ((getAttr itm "swapyItem").getD "")
    match handleEidOf itm with
    | some h => setAttrAt tb h "velView" "handle"
    | none => tb) r1
  let texts := (descF r0.children).filter (fun e => hasAttr e "swapyText")
  let r3 := (texts.map VElem.eid).foldl (fun t x => setAttrAt t x "velLayoutPosition" "") r2
  let excls := (descF r0.children).filter (fun e => hasAttr e "swapyExclude")
  (excls.map VElem.eid).foldl (fun t x => setAttrAt t x "velIgnore" "") r3

/-- createSwapy(root, userConfig): throws when the root is absent; resolves
the configuration; throws after validation fails, before any tagging; on
success tags the tree and returns the generated plugin key.  The fresh plugin
key produced by getUniqueId is passed in as a parameter.  The first component
is the tree after the call (unchanged on every failure path). -/
def createSwapy (root : Option VElem) (userConfig : UserConfig) (freshKey : String) :
    Option VElem × Except String String :=
  match root with
  | none =>
    (none, Except.error
      "Cannot create a Swapy instance because the element you provided does not exist on the page!")
  | some rootEl =>
    let config := resolveConfig userConfig
    if (validate rootEl).1 then
      (some (addVeloxiDataAttributes rootEl config freshKey), Except.ok freshKey)
    else
      (some rootEl, Except.error
        "Cannot create a Swapy instance because your HTML structure is invalid. Fix all above errors and then try!")

/-- Swapy._createSlotElMap on the tree: reduce over the slot-marked
descendants, Map.set keyed by the slot id (last write wins on duplicates). -/
def createSlotElMap (root : VElem) : List (String × Nat) :=
  ((descF root.children).filter (fun e => hasAttr e "swapySlot")).foldl
    (fun m el => mapSet m ((getAttr el "swapySlot").getD "") el.eid) []

/-- Swapy._createItemElMap on the tree. -/
def createItemElMap (root : VElem) : List (String × Nat) :=
  ((descF root.children).filter (fun e => hasAttr e "swapyItem")).foldl
    (fun m el => mapSet m ((getAttr el "swapyItem").getD "") el.eid) []

/-- The kind of one MutationRecord, as far as the observer callback reads it. -/
inductive MutationKind where
  | childList
  | other
deriving DecidableEq

/-- The state the mutation observer callback reads and writes. -/
structure TreeState where
  root : VElem
  slotElMap : List (String × Nat)
  itemElMap : List (String × Nat)

/-- The MutationObserver callback installed by Swapy.setupMutationObserver:
on a batch containing a childList record, run resyncItems; when it found new
items, rebuild both registries from scratch. -/
def observerCallback (st : TreeState) (muts : List MutationKind) : TreeState :=
  if muts.any (fun mu => mu == MutationKind.childList) then
    let res := resyncItems st.root
    if res.2 then ⟨res.1, createSlotElMap res.1, createItemElMap res.1⟩
    else ⟨res.1, st.slotElMap, st.itemElMap⟩
  else st

/-- At most one of the four swapy markers (item, handle, text, exclude) on
any one element - the intended authoring discipline: a drag handle, a text
node or an excluded node is never itself an item, and so on. -/
def markersDisjoint (root : VElem) : Prop :=
  ∀ e ∈ descF root.children,
    (hasAttr e "swapyItem" = true →
      hasAttr e "swapyHandle" = false ∧ hasAttr e "swapyText" = false ∧
        hasAttr e "swapyExclude" = false) ∧
      (hasAttr e "swapyHandle" = true →
        hasAttr e "swapyText" = false ∧ hasAttr e "swapyExclude" = false) ∧
        (hasAttr e "swapyText" = true → hasAttr e "swapyExclude" = false)

/-- One dataset stamp: target identity, key, value. -/
abbrev Stamp := Nat × String × String

/-- Apply a list of stamps to the tree in order. -/
def applyStamps (t : VElem) (l : List Stamp) : VElem :=
  l.foldl (fun acc s => setAttrAt acc s.1 s.2.1 s.2.2) t

/-- The ordered list of stamps tagItem performs for one item. -/
def stampsOfTag (item : VElem) : List Stamp :=
  (item.eid, "velView", "item") ::
    (item.eid, "velLayoutId", (getAttr item "swapyItem").getD "") ::
      ((match handleEidOf item with
        | some h => [(h, "velView", "handle")]
        | none => []) ++
        (textEidsOf item).map (fun x => (x, "velLayoutPosition", "")) ++
          (exclEidsOf item).map (fun x => (x, "velIgnore", "")))

/-! ### Concrete fixtures used by counterexamples and witnesses -/

/-- Registries for two slots (elements 1, 2) and three items (10, 11, 12). -/
def exSlotMap : List (String × EId) := [("s1", 1), ("s2", 2)]

/-- Item registry fixture. -/
def exItemMap : List (String × EId) := [("a", 10), ("b", 11), ("c", 12)]

/-- The spec example's previousMap: s1 holds a, s2 holds b. -/
def exPrev : AMap := [("s1", some "a"), ("s2", some "b")]

/-- The spec example's candidate: s1 keeps a, s2 changes to c. -/
def exCand : AMap := [("s1", some "a"), ("s2", some "c")]

/-- State where item c's element (12) physically sits inside slot s1's
element (1), while previousMap records the spec example's arrangement. -/
def cexSt : SwapyState := ⟨exSlotMap, exItemMap, some exPrev, true, [(1, [10, 12]), (2, [11])]⟩

/-- State whose DOM agrees with the stored previousMap (c detached). -/
def wSt : SwapyState := ⟨exSlotMap, exItemMap, some exPrev, true, [(1, [10]), (2, [11])]⟩

/-- State for the null-entry analysis: slot s1 (element 1) holds item x
(element 10), slot s2 (element 2) is empty. -/
def cex6St : SwapyState :=
  ⟨[("s1", 1), ("s2", 2)], [("x", 10)], some [("s1", some "x"), ("s2", none)], true,
    [(1, [10]), (2, [])]⟩

/-- Candidate that nulls slot s1's entry and moves item x into slot s2. -/
def cex6M : AMap := [("s1", none), ("s2", some "x")]

/-- Watcher fixture: a drag handle inside the late-inserted item. -/
def c8Handle : VElem := .mk 5 [("swapyHandle", "")] VForest.nil

/-- Watcher fixture: a text-tracked node inside the late-inserted item. -/
def c8Text : VElem := .mk 6 [("swapyText", "")] VForest.nil

/-- Watcher fixture: an excluded node inside the late-inserted item. -/
def c8Excl : VElem := .mk 7 [("swapyExclude", "")] VForest.nil

/-- Watcher fixture: a late-inserted, not yet tagged item b. -/
def c8ItemB : VElem :=
  .mk 4 [("swapyItem", "b")] (VForest.ofList [c8Handle, c8Text, c8Excl])

/-- Watcher fixture: an already-tagged item a. -/
def c8ItemA : VElem :=
  .mk 2 [("swapyItem", "a"), ("velView", "item"), ("velLayoutId", "a")] VForest.nil

/-- Watcher fixture root: two slots, one holding the tagged item a, the other
the untagged item b. -/
def c8Root : VElem :=
  .mk 0 [("velPlugin", "Swapy")] (VForest.ofList
    [.mk 1 [("swapySlot", "s1")] (VForest.ofList [c8ItemA]),
      .mk 3 [("swapySlot", "s2")] (VForest.ofList [c8ItemB])])

/-- Watcher fixture state with registries predating item b. -/
def c8St : TreeState := ⟨c8Root, [("s1", 1), ("s2", 3)], [("a", 2)]⟩

/-! ### Theorems: the flat synchronizer model -/

theorem handleSwapEvent_of_suppressed (st : SwapyState) (ev : SwapEvt)
    (h : suppressed st ev.map = true) : handleSwapEvent st ev = (st, []) := by
  unfold handleSwapEvent
  rw [if_pos h]

theorem handleSwapEvent_of_effective (st : SwapyState) (ev : SwapEvt)
    (h : suppressed st ev.map = false) :
    handleSwapEvent st ev =
      (⟨st.slotElMap, st.itemElMap, some ev.map, st.hasCallback, applyOrder st ev.map⟩,
        if st.hasCallback then [ev] else []) := by
  unfold handleSwapEvent
  rw [if_neg (by simp [h])]

theorem lookup_mem {α β : Type} [BEq α] [LawfulBEq α] {l : List (α × β)} {a : α} {b : β}
    (h : l.lookup a = some b) : (a, b) ∈ l := by
  induction l with
  | nil => simp [List.lookup] at h
  | cons p rest ih =>
    obtain ⟨k, v⟩ := p
    rw [List.lookup_cons] at h
    by_cases hk : a == k
    · have hk' : a = k := by simpa using hk
      rw [hk] at h
      simp only [Option.some.injEq] at h
      simp [hk', h]
    · rw [Bool.not_eq_true] at hk
      rw [hk] at h
      exact List.mem_cons_of_mem _ (ih h)

theorem opEntry_fst (s i : EId) (p : EId × List EId) : (opEntry s i p).1 = p.1 := by
  unfold opEntry
  by_cases h : p.1 == s <;> simp [h]

theorem appendChild_clearSlot_eq (d : Dom) (s i : EId) :
    appendChild (clearSlot d s) s i = opSI s i d := by
  unfold appendChild clearSlot opSI
  rw [List.map_map, List.map_map]
  refine List.map_congr_left ?_
  intro p _
  by_cases h : p.1 == s <;> simp [opEntry, h, Function.comp]

theorem applyOrderStep_eq (st : SwapyState) (m : AMap) (d : Dom) (k : String) :
    applyOrderStep st m d k =
      match stepAction st m k with
      | none => d
      | some si => opSI si.1 si.2 d := by
  unfold applyOrderStep stepAction
  by_cases h1 : (jsGet m k == prevGet st.previousMap k) = true
  · rw [if_pos h1, if_pos h1]
  · rw [if_neg h1, if_neg h1]
    cases hg : jsGet m k with
    | none => rfl
    | some v =>
      cases v with
      | none => rfl
      | some nm =>
        by_cases h2 : (nm == "") = true
        · simp [h2]
        · cases hl : st.slotElMap.lookup k with
          | none => simp [h2, hl]
          | some s =>
            cases hi : st.itemElMap.lookup nm with
            | none => simp [h2, hl, hi]
            | some i => simp [h2, hl, hi, appendChild_clearSlot_eq]

theorem domGet_opSI (s i : EId) (d : Dom) (e : EId) :
    domGet (opSI s i d) e =
      if e = s then (domGet d e).map (fun _ => [i])
      else (domGet d e).map (fun cs => cs.filter (fun c => c != i)) := by
  induction d with
  | nil => by_cases h : e = s <;> simp [opSI, domGet, h]
  | cons p rest ih =>
    obtain ⟨pk, pv⟩ := p
    by_cases hks : pk = s
    · subst hks
      by_cases hek : e = pk
      · subst hek
        simp [opSI, opEntry, domGet, List.lookup_cons]
      · have hb : (e == pk) = false := by simpa using hek
        simp only [opSI, opEntry, domGet, List.map_cons, beq_self_eq_true, if_pos,
          List.lookup_cons, hb] at ih ⊢
        simpa [hek] using ih
    · by_cases hek : e = pk
      · subst hek
        have hb : (e == s) = false := by simpa using hks
        simp [opSI, opEntry, domGet, List.lookup_cons, hb, hks]
      · have hb : (e == pk) = false := by simpa using hek
        have hb2 : (pk == s) = false := by simpa using hks
        simp [opSI, opEntry, domGet, List.lookup_cons, hb, hb2] at ih ⊢
        exact ih

theorem domKeys_opSI (s i : EId) (d : Dom) :
    (opSI s i d).map Prod.fst = d.map Prod.fst := by
  unfold opSI
  rw [List.map_map]
  have : (Prod.fst ∘ opEntry s i) = (Prod.fst : EId × List EId → EId) := by
    funext p
    exact opEntry_fst s i p
  rw [this]

theorem domKeys_step (st : SwapyState) (m : AMap) (d : Dom) (k : String) :
    (applyOrderStep st m d k).map Prod.fst = d.map Prod.fst := by
  rw [applyOrderStep_eq]
  cases stepAction st m k with
  | none => rfl
  | some si => exact domKeys_opSI si.1 si.2 d

theorem domKeys_foldl_steps (st : SwapyState) (m : AMap) (ks : List String) :
    ∀ d : Dom, ((ks.foldl (applyOrderStep st m) d).map Prod.fst) = d.map Prod.fst := by
  induction ks with
  | nil => intro d; rfl
  | cons k ks ih =>
    intro d
    rw [List.foldl_cons, ih, domKeys_step]

theorem exists_domGet_of_mem_keys (d : Dom) (e : EId) (he : e ∈ d.map Prod.fst) :
    ∃ cs, domGet d e = some cs := by
  induction d with
  | nil => simp at he
  | cons p rest ih =>
    obtain ⟨pk, pv⟩ := p
    by_cases hk : pk = e
    · subst hk
      exact ⟨pv, by simp [domGet, List.lookup_cons]⟩
    · have : e ∈ rest.map Prod.fst := by
        rcases List.mem_cons.mp he with h | h
        · exact absurd h.symm hk
        · exact h
      obtain ⟨cs, hcs⟩ := ih this
      refine ⟨cs, ?_⟩
      have hne : (e == pk) = false := by simpa using Ne.symm hk
      simp [domGet, List.lookup_cons, hne] at hcs ⊢
      exact hcs

theorem foldl_steps_preserve (st : SwapyState) (m : AMap) (ks : List String)
    (e : EId) (cs : List EId)
    (hks : ∀ k ∈ ks, ∀ s i, stepAction st m k = some (s, i) → s ≠ e ∧ i ∉ cs) :
    ∀ d : Dom, domGet d e = some cs →
      domGet (ks.foldl (applyOrderStep st m) d) e = some cs := by
  induction ks with
  | nil => intro d hd; simpa using hd
  | cons k ks ih =>
    intro d hd
    have hstep : domGet (applyOrderStep st m d k) e = some cs := by
      rw [applyOrderStep_eq]
      cases ha : stepAction st m k with
      | none => simpa using hd
      | some si =>
        obtain ⟨hs, hi⟩ := hks k (by simp) si.1 si.2 (by rw [ha])
        rw [domGet_opSI, if_neg (fun hh => hs hh.symm), hd]
        have hfix : cs.filter (fun c => c != si.2) = cs := by
          refine List.filter_eq_self.mpr ?_
          intro a ha'
          have hne : a ≠ si.2 := fun haa => hi (by rw [haa] at ha'; exact ha')
          simpa using hne
        simp [hfix]
    rw [List.foldl_cons]
    exact ih (fun k' hk' => hks k' (List.mem_cons_of_mem _ hk')) _ hstep

theorem stepAction_inv (st : SwapyState) (m : AMap) (k : String) (s i : EId)
    (h : stepAction st m k = some (s, i)) :
    ∃ nm, jsGet m k = some (some nm) ∧ nm ≠ "" ∧
      st.slotElMap.lookup k = some s ∧ st.itemElMap.lookup nm = some i := by
  unfold stepAction at h
  by_cases h1 : (jsGet m k == prevGet st.previousMap k) = true
  · rw [if_pos h1] at h; exact absurd h (by simp)
  · rw [if_neg h1] at h
    cases hg : jsGet m k with
    | none => rw [hg] at h; simp at h
    | some v =>
      cases v with
      | none => rw [hg] at h; simp at h
      | some nm =>
        rw [hg] at h
        by_cases h2 : (nm == "") = true
        · simp [h2] at h
        · cases hl : st.slotElMap.lookup k with
          | none => simp [h2, hl] at h
          | some s' =>
            cases hi : st.itemElMap.lookup nm with
            | none => simp [h2, hl, hi] at h
            | some i' =>
              simp [h2, hl, hi] at h
              exact ⟨nm, rfl, by simpa using h2, congrArg some h.1,
                hi.trans (congrArg some h.2)⟩

theorem stepAction_pairwise (st : SwapyState) (m : AMap)
    (hvals : ∀ p ∈ m, ∀ q ∈ m, p.2 = q.2 → p.2 ≠ none → p.1 = q.1)
    (hslots : ∀ p ∈ st.slotElMap, ∀ q ∈ st.slotElMap, p.2 = q.2 → p.1 = q.1)
    (hitems : ∀ p ∈ st.itemElMap, ∀ q ∈ st.itemElMap, p.2 = q.2 → p.1 = q.1) :
    ∀ x y, x ≠ y → ∀ s1 i1 s2 i2, stepAction st m x = some (s1, i1) →
      stepAction st m y = some (s2, i2) → s1 ≠ s2 ∧ i1 ≠ i2 := by
  intro x y hxy s1 i1 s2 i2 hx hy
  obtain ⟨nm1, hg1, _, hl1, hi1⟩ := stepAction_inv st m x s1 i1 hx
  obtain ⟨nm2, hg2, _, hl2, hi2⟩ := stepAction_inv st m y s2 i2 hy
  constructor
  · intro hss
    exact hxy (hslots (x, s1) (lookup_mem hl1) (y, s2) (lookup_mem hl2) hss)
  · intro hii
    have hnm : nm1 = nm2 := hitems (nm1, i1) (lookup_mem hi1) (nm2, i2) (lookup_mem hi2) hii
    have hm1 : (x, some nm1) ∈ m := lookup_mem hg1
    have hm2 : (y, some nm2) ∈ m := lookup_mem hg2
    exact hxy (hvals (x, some nm1) hm1 (y, some nm2) hm2 (by rw [hnm]) (by simp))

theorem opSI_comm (s1 i1 s2 i2 : EId) (hs : s1 ≠ s2) (hi : i1 ≠ i2) (d : Dom) :
    opSI s2 i2 (opSI s1 i1 d) = opSI s1 i1 (opSI s2 i2 d) := by
  unfold opSI
  rw [List.map_map, List.map_map]
  refine List.map_congr_left ?_
  intro p _
  obtain ⟨pk, pv⟩ := p
  by_cases h1 : pk = s1
  · subst h1
    have h2 : (pk == s2) = false := by simpa using hs
    have hii : (i1 != i2) = true := by simpa using hi
    simp [opEntry, Function.comp, h2, hii]
  · by_cases h2 : pk = s2
    · subst h2
      have h1' : (pk == s1) = false := by simpa using h1
      have hii : (i2 != i1) = true := by simpa using Ne.symm hi
      simp [opEntry, Function.comp, h1', hii]
    · have h1' : (pk == s1) = false := by simpa using h1
      have h2' : (pk == s2) = false := by simpa using h2
      simp [opEntry, Function.comp, h1', h2', List.filter_filter, Bool.and_comm]

theorem applyOrderStep_comm (st : SwapyState) (m : AMap)
    (hpair : ∀ x y, x ≠ y → ∀ s1 i1 s2 i2, stepAction st m x = some (s1, i1) →
      stepAction st m y = some (s2, i2) → s1 ≠ s2 ∧ i1 ≠ i2)
    (x y : String) (d : Dom) :
    applyOrderStep st m (applyOrderStep st m d x) y
      = applyOrderStep st m (applyOrderStep st m d y) x := by
  by_cases hxy : x = y
  · subst hxy; rfl
  · rw [applyOrderStep_eq, applyOrderStep_eq, applyOrderStep_eq, applyOrderStep_eq]
    cases hx : stepAction st m x with
    | none => cases hy : stepAction st m y with
      | none => rfl
      | some sj => rfl
    | some si =>
      cases hy : stepAction st m y with
      | none => rfl
      | some sj =>
        obtain ⟨hs, hi⟩ :=
          hpair x y hxy si.1 si.2 sj.1 sj.2 (by rw [hx]) (by rw [hy])
        exact opSI_comm si.1 si.2 sj.1 sj.2 hs hi d

/-- C1: with a stored previousMap, delivering a swap event whose candidate
map is value-set-equal to it is a complete no-op: the instance state (hence
the DOM contents and previousMap) is unchanged and the swap callback is not
invoked. -/
theorem suppressed_swap_is_noop (st : SwapyState) (ev : SwapEvt) (pm : AMap)
    (h1 : st.previousMap = some pm) (h2 : mapsAreEqual pm ev.map = true) :
    handleSwapEvent st ev = (st, []) := by
  simp [handleSwapEvent, suppressed, h1, h2]

/-- Witness for suppressed_swap_is_noop: a concrete state whose stored map is
a key-reordering of the delivered candidate map. -/
theorem suppressed_swap_is_noop_witness :
    handleSwapEvent
      ⟨[("s1", 1), ("s2", 2)], [("a", 10), ("b", 11)],
        some [("s1", some "a"), ("s2", some "b")], true, [(1, [10]), (2, [11])]⟩
      ⟨[("s2", some "b"), ("s1", some "a")], "drag"⟩
    = (⟨[("s1", 1), ("s2", 2)], [("a", 10), ("b", 11)],
        some [("s1", some "a"), ("s2", some "b")], true, [(1, [10]), (2, [11])]⟩, []) :=
  suppressed_swap_is_noop _ _ [("s1", some "a"), ("s2", some "b")] rfl (by decide)

/-- C7: on a non-suppressed swap event the handler stores exactly the
candidate map as the new previousMap, and the registered callback (when one
is registered) is invoked exactly once, with the full event payload. -/
theorem effective_swap_contract (st : SwapyState) (ev : SwapEvt)
    (h : suppressed st ev.map = false) :
    (handleSwapEvent st ev).1.previousMap = some ev.map ∧
      (handleSwapEvent st ev).2 = (if st.hasCallback then [ev] else []) := by
  constructor <;> simp [handleSwapEvent, h]

/-- Witness for effective_swap_contract: a concrete effective swap delivers
the event to the callback once and stores the candidate map. -/
theorem effective_swap_contract_witness :
    (handleSwapEvent
      ⟨[("s1", 1), ("s2", 2)], [("a", 10), ("b", 11)],
        some [("s1", some "a"), ("s2", some "b")], true, [(1, [10]), (2, [11])]⟩
      ⟨[("s1", some "b"), ("s2", some "a")], "drop"⟩).1.previousMap
      = some [("s1", some "b"), ("s2", some "a")] ∧
    (handleSwapEvent
      ⟨[("s1", 1), ("s2", 2)], [("a", 10), ("b", 11)],
        some [("s1", some "a"), ("s2", some "b")], true, [(1, [10]), (2, [11])]⟩
      ⟨[("s1", some "b"), ("s2", some "a")], "drop"⟩).2
      = (if true then [⟨[("s1", some "b"), ("s2", some "a")], "drop"⟩] else []) :=
  effective_swap_contract _ _ (by decide)

/-- C10: on every non-suppressed swap event previousMap is set to the
candidate map unconditionally - the handler never checks whether any per-slot
application took effect, so this holds even when the DOM is left exactly as it
was - and any later delivery of a value-set-equal map is then suppressed. -/
theorem previousMap_unconditional_update (st : SwapyState) (ev : SwapEvt)
    (h : suppressed st ev.map = false) :
    (handleSwapEvent st ev).1.previousMap = some ev.map ∧
      (handleSwapEvent st ev).1.dom = applyOrder st ev.map ∧
        ∀ ev2 : SwapEvt, mapsAreEqual ev.map ev2.map = true →
          handleSwapEvent (handleSwapEvent st ev).1 ev2 = ((handleSwapEvent st ev).1, []) := by
  rw [handleSwapEvent_of_effective st ev h]
  refine ⟨rfl, rfl, ?_⟩
  intro ev2 heq
  exact handleSwapEvent_of_suppressed _ _ (by simp [suppressed, heq])

/-- Witness for previousMap_unconditional_update: the candidate names an item
absent from the item registry, so every per-slot application is skipped and
the DOM is not mutated at all; previousMap is nevertheless replaced, and
re-delivering the same map (here with different metadata) is suppressed even
though the DOM was never brought to the state the snapshot records. -/
theorem previousMap_unconditional_update_witness :
    (handleSwapEvent
        ⟨[("s1", 1)], [("a", 10)], some [("s1", some "a")], true, [(1, [10])]⟩
        ⟨[("s1", some "b")], "drag"⟩).1.previousMap = some [("s1", some "b")] ∧
      (handleSwapEvent
        ⟨[("s1", 1)], [("a", 10)], some [("s1", some "a")], true, [(1, [10])]⟩
        ⟨[("s1", some "b")], "drag"⟩).1.dom = [(1, [10])] ∧
      handleSwapEvent
        (handleSwapEvent
          ⟨[("s1", 1)], [("a", 10)], some [("s1", some "a")], true, [(1, [10])]⟩
          ⟨[("s1", some "b")], "drag"⟩).1
        ⟨[("s1", some "b")], "later"⟩
      = ((handleSwapEvent
          ⟨[("s1", 1)], [("a", 10)], some [("s1", some "a")], true, [(1, [10])]⟩
          ⟨[("s1", some "b")], "drag"⟩).1, []) := by
  have h := previousMap_unconditional_update
    ⟨[("s1", 1)], [("a", 10)], some [("s1", some "a")], true, [(1, [10])]⟩
    ⟨[("s1", some "b")], "drag"⟩ (by decide)
  exact ⟨h.1, h.2.1.trans (by decide), h.2.2 ⟨[("s1", some "b")], "later"⟩ (by decide)⟩

theorem applyOrder_sets (st : SwapyState) (m : AMap) (k : String) (s i : EId)
    (hnodup : (m.map Prod.fst).Nodup)
    (hk : k ∈ m.map Prod.fst)
    (hact : stepAction st m k = some (s, i))
    (hothers : ∀ k' ∈ m.map Prod.fst, k' ≠ k → ∀ s' i',
      stepAction st m k' = some (s', i') → s' ≠ s ∧ i' ≠ i)
    (hse : s ∈ st.dom.map Prod.fst) :
    domGet (applyOrder st m) s = some [i] := by
  unfold applyOrder
  obtain ⟨l1, l2, hsplit⟩ := List.append_of_mem hk
  rw [hsplit, List.foldl_append, List.foldl_cons]
  have hkeys : ((l1.foldl (applyOrderStep st m) st.dom).map Prod.fst) = st.dom.map Prod.fst :=
    domKeys_foldl_steps st m l1 st.dom
  have hs1 : s ∈ (l1.foldl (applyOrderStep st m) st.dom).map Prod.fst := by
    rw [hkeys]; exact hse
  obtain ⟨cs0, hcs0⟩ := exists_domGet_of_mem_keys _ s hs1
  have hstep :
      domGet (applyOrderStep st m (l1.foldl (applyOrderStep st m) st.dom) k) s = some [i] := by
    rw [applyOrderStep_eq, hact, domGet_opSI, if_pos rfl, hcs0]
    rfl
  refine foldl_steps_preserve st m l2 s [i] ?_ _ hstep
  intro k' hk' s' i' hsi
  have hkl2 : k ∉ l2 := by
    have hnd := hnodup
    rw [hsplit] at hnd
    exact (List.nodup_cons.mp hnd.of_append_right).1
  have hne : k' ≠ k := fun hh => hkl2 (hh ▸ hk')
  have hmem : k' ∈ m.map Prod.fst := by
    rw [hsplit]
    exact List.mem_append_right _ (List.mem_cons_of_mem _ hk')
  obtain ⟨h1, h2⟩ := hothers k' hmem hne s' i' hsi
  exact ⟨h1, by simpa using h2⟩

/-- C2 counterexample to the claim as stated: with the spec example's maps
(previousMap s1 holds a and s2 holds b; candidate keeps s1 at a and changes
s2 to c) but with item c's element physically inside slot s1, applying the
candidate mutates slot s1's contents - appendChild detaches c from s1 - even
though s1's entry is unchanged. -/
theorem unchanged_slot_mutated_cex :
    jsGet exCand "s1" = prevGet cexSt.previousMap "s1" ∧
      cexSt.slotElMap.lookup "s1" = some 1 ∧
        domGet cexSt.dom 1 = some [10, 12] ∧
          domGet (applyOrder cexSt exCand) 1 = some [10] := by
  decide

/-- C2 (amended): only slots whose candidate entry differs from their
previousMap entry are ever targeted by the diff (an unchanged slot's step is
a no-op), and an unchanged slot keeps its exact current contents provided no
changed slot resolves to the same slot element and no changed slot's resolved
item element currently sits among its children - conditions that hold
whenever the DOM agrees with previousMap and the candidate map assigns each
item to at most one slot. -/
theorem unchanged_slot_kept_amended (st : SwapyState) (m : AMap) (k0 : String)
    (e : EId) (cs : List EId)
    (hunch : jsGet m k0 = prevGet st.previousMap k0)
    (hslot : st.slotElMap.lookup k0 = some e)
    (hcs : domGet st.dom e = some cs)
    (hnon : ∀ k ∈ m.map Prod.fst, ∀ s i, stepAction st m k = some (s, i) → s ≠ e ∧ i ∉ cs) :
    stepAction st m k0 = none ∧ domGet (applyOrder st m) e = some cs := by
  constructor
  · unfold stepAction
    rw [if_pos (by simp [hunch])]
  · unfold applyOrder
    exact foldl_steps_preserve st m (m.map Prod.fst) e cs hnon st.dom hcs

/-- Witness for unchanged_slot_kept_amended: the spec's own example with a
DOM consistent with previousMap - only slot s2 is targeted and slot s1 keeps
exactly its current contents. -/
theorem unchanged_slot_kept_amended_witness :
    stepAction wSt exCand "s1" = none ∧ domGet (applyOrder wSt exCand) 1 = some [10] := by
  refine unchanged_slot_kept_amended wSt exCand "s1" 1 [10] (by decide) (by decide) (by decide) ?_
  intro k hk s i hsi
  have hk' : k = "s1" ∨ k = "s2" := by simpa [exCand] using hk
  rcases hk' with rfl | rfl
  · rw [show stepAction wSt exCand "s1" = none from by decide] at hsi
    cases hsi
  · rw [show stepAction wSt exCand "s2" = some (2, 12) from by decide] at hsi
    simp only [Option.some.injEq, Prod.mk.injEq] at hsi
    obtain ⟨rfl, rfl⟩ := hsi.symm
    decide

/-- C6 counterexample to the claim as stated: slot s1 carries a null
candidate entry, yet applying the diff empties it, because the same candidate
assigns slot s1's occupant to slot s2 and appendChild detaches it.  The
skipped slot's DOM contents are not left unchanged. -/
theorem null_entry_slot_disturbed_cex :
    jsGet cex6M "s1" = some none ∧
      domGet cex6St.dom 1 = some [10] ∧
        domGet (applyOrder cex6St cex6M) 1 = some [] := by
  decide

/-- C6 (amended): for a slot whose candidate item id is null or empty, or
whose slot id misses the slot registry, or whose item id misses the item
registry, the per-slot application is skipped entirely - the routine performs
no mutation targeting that slot and (being total) raises no error; in
particular a null candidate entry is never itself enacted.  The slot's
contents can still change when another changed slot pulls an element out of
it. -/
theorem skipped_slot_noop_amended (st : SwapyState) (m : AMap) (k : String)
    (h : jsGet m k = some none ∨
      (∃ nm, jsGet m k = some (some nm) ∧
        (nm = "" ∨ st.slotElMap.lookup k = none ∨ st.itemElMap.lookup nm = none))) :
    stepAction st m k = none ∧ ∀ d : Dom, applyOrderStep st m d k = d := by
  have hact : stepAction st m k = none := by
    unfold stepAction
    by_cases h1 : (jsGet m k == prevGet st.previousMap k) = true
    · rw [if_pos h1]
    · rw [if_neg h1]
      rcases h with hnull | ⟨nm, hnm, hcase⟩
      · rw [hnull]
      · rw [hnm]
        rcases hcase with rfl | hsl | hit
        · simp
        · simp [hsl]
        · by_cases hnm0 : (nm == "") = true
          · simp [hnm0]
          · cases hl : st.slotElMap.lookup k with
            | none => simp [hnm0, hl]
            | some s => simp [hnm0, hl, hit]
  refine ⟨hact, ?_⟩
  intro d
  rw [applyOrderStep_eq, hact]

/-- Witness for skipped_slot_noop_amended: the null-entry slot s1 of the
concrete fixture is skipped and its step leaves the DOM argument unchanged. -/
theorem skipped_slot_noop_amended_witness :
    stepAction cex6St cex6M "s1" = none ∧
      applyOrderStep cex6St cex6M [(1, [10]), (2, [])] "s1" = [(1, [10]), (2, [])] := by
  have h := skipped_slot_noop_amended cex6St cex6M "s1" (Or.inl (by decide))
  exact ⟨h.1, h.2 [(1, [10]), (2, [])]⟩

/-- C3: the final DOM arrangement applyOrder produces does not depend on the
order in which the candidate map's keys are processed: for every permutation
of the key list, the fold yields the same result, given the AssignmentMap
invariant (no item id assigned to two slots) and registries that do not alias
one element under two ids (always true of registries built from a tree, since
an element carries one slot id and one item id). -/
theorem applyOrder_perm_invariant (st : SwapyState) (m : AMap) (ks : List String)
    (hperm : ks.Perm (m.map Prod.fst))
    (hvals : ∀ p ∈ m, ∀ q ∈ m, p.2 = q.2 → p.2 ≠ none → p.1 = q.1)
    (hslots : ∀ p ∈ st.slotElMap, ∀ q ∈ st.slotElMap, p.2 = q.2 → p.1 = q.1)
    (hitems : ∀ p ∈ st.itemElMap, ∀ q ∈ st.itemElMap, p.2 = q.2 → p.1 = q.1) :
    ks.foldl (applyOrderStep st m) st.dom = applyOrder st m := by
  unfold applyOrder
  exact hperm.foldl_eq'
    (fun x _ y _ d =>
      applyOrderStep_comm st m (stepAction_pairwise st m hvals hslots hitems) x y d)
    st.dom

/-- Witness for applyOrder_perm_invariant: processing the two changed slots
of a concrete swap in reversed key order produces the same arrangement. -/
theorem applyOrder_perm_invariant_witness :
    ["s2", "s1"].foldl
        (applyOrderStep wSt [("s1", some "b"), ("s2", some "a")])
        wSt.dom
      = applyOrder wSt [("s1", some "b"), ("s2", some "a")] :=
  applyOrder_perm_invariant wSt [("s1", some "b"), ("s2", some "a")] ["s2", "s1"]
    (by decide) (by decide) (by decide) (by decide)

/-- C9: before any init event (previousMap unset) the value-set-equality
suppression never applies: the handler proceeds - the callback fires when
registered and previousMap is stored - and every per-slot comparison against
the prior map sees undefined, so a slot with a non-null candidate item id and
successful registry lookups receives exactly its item, even when the
candidate matches the DOM's existing arrangement. -/
theorem preinit_swap_applies (st : SwapyState) (ev : SwapEvt) (k nm : String) (s i : EId)
    (hprev : st.previousMap = none)
    (hget : jsGet ev.map k = some (some nm))
    (hnm : nm ≠ "")
    (hslot : st.slotElMap.lookup k = some s)
    (hitem : st.itemElMap.lookup nm = some i)
    (hnodup : (ev.map.map Prod.fst).Nodup)
    (hvals : ∀ p ∈ ev.map, ∀ q ∈ ev.map, p.2 = q.2 → p.2 ≠ none → p.1 = q.1)
    (hslots : ∀ p ∈ st.slotElMap, ∀ q ∈ st.slotElMap, p.2 = q.2 → p.1 = q.1)
    (hitems : ∀ p ∈ st.itemElMap, ∀ q ∈ st.itemElMap, p.2 = q.2 → p.1 = q.1)
    (hse : s ∈ st.dom.map Prod.fst) :
    suppressed st ev.map = false ∧
      (handleSwapEvent st ev).2 = (if st.hasCallback then [ev] else []) ∧
        (handleSwapEvent st ev).1.previousMap = some ev.map ∧
          stepAction st ev.map k = some (s, i) ∧
            domGet (handleSwapEvent st ev).1.dom s = some [i] := by
  have hsup : suppressed st ev.map = false := by
    simp [suppressed, hprev]
  have hcond : (jsGet ev.map k == prevGet st.previousMap k) = false := by
    rw [hget, hprev]
    rfl
  have hact : stepAction st ev.map k = some (s, i) := by
    unfold stepAction
    rw [if_neg (by simp [hcond])]
    rw [hget]
    have hnm' : (nm == "") = false := by simpa using hnm
    simp [hnm', hslot, hitem]
  have hkmem : k ∈ ev.map.map Prod.fst :=
    List.mem_map_of_mem Prod.fst (lookup_mem hget)
  have hdom : domGet (applyOrder st ev.map) s = some [i] := by
    refine applyOrder_sets st ev.map k s i hnodup hkmem hact ?_ hse
    intro k' hk' hne s' i' hsi
    exact stepAction_pairwise st ev.map hvals hslots hitems k' k hne s' i' s i hsi hact
  rw [handleSwapEvent_of_effective st ev hsup]
  exact ⟨hsup, rfl, rfl, hact, hdom⟩

/-- Witness for preinit_swap_applies: previousMap is unset and the candidate
map matches the DOM's existing arrangement (slot s1 already holds item a);
the event is still applied and the callback fires. -/
theorem preinit_swap_applies_witness :
    suppressed ⟨[("s1", 1)], [("a", 10)], none, true, [(1, [10])]⟩
        [("s1", some "a")] = false ∧
      (handleSwapEvent ⟨[("s1", 1)], [("a", 10)], none, true, [(1, [10])]⟩
          ⟨[("s1", some "a")], "gesture"⟩).2
        = (if true then [⟨[("s1", some "a")], "gesture"⟩] else []) ∧
        (handleSwapEvent ⟨[("s1", 1)], [("a", 10)], none, true, [(1, [10])]⟩
            ⟨[("s1", some "a")], "gesture"⟩).1.previousMap = some [("s1", some "a")] ∧
          stepAction ⟨[("s1", 1)], [("a", 10)], none, true, [(1, [10])]⟩
              [("s1", some "a")] "s1" = some (1, 10) ∧
            domGet (handleSwapEvent ⟨[("s1", 1)], [("a", 10)], none, true, [(1, [10])]⟩
                ⟨[("s1", some "a")], "gesture"⟩).1.dom 1 = some [10] :=
  preinit_swap_applies ⟨[("s1", 1)], [("a", 10)], none, true, [(1, [10])]⟩
    ⟨[("s1", some "a")], "gesture"⟩ "s1" "a" 1 10 rfl (by decide) (by decide) (by decide)
    (by decide) (by decide) (by decide) (by decide) (by decide) (by decide)

/-! ### Theorems: the structural validator -/

theorem validate_foldl (l : List (Nat × VElem)) (b : Bool) (ds : List Diag) :
    l.foldl (fun acc p => (acc.1 && slotOk p.2, acc.2 ++ slotDiags p.1 p.2)) (b, ds)
      = (b && l.all (fun p => slotOk p.2), ds ++ l.flatMap (fun p => slotDiags p.1 p.2)) := by
  induction l generalizing b ds with
  | nil => simp
  | cons p rest ih => simp [ih, Bool.and_assoc]

theorem all_enumFrom {α : Type} (l : List α) (f : α → Bool) :
    ∀ n, (l.enumFrom n).all (fun p => f p.2) = l.all f := by
  induction l with
  | nil => intro n; rfl
  | cons x rest ih => intro n; simp [List.enumFrom_cons, ih]

theorem enum_snd_unique {α : Type} {l : List α} {i : Nat} {a b : α}
    (ha : (i, a) ∈ l.enum) (hb : (i, b) ∈ l.enum) : a = b := by
  rw [List.mk_mem_enum_iff_getElem?] at ha hb
  rw [ha] at hb
  exact Option.some.inj hb

theorem noSlots_not_mem_slotDiags (j : Nat) (s : VElem) : Diag.noSlots ∉ slotDiags j s := by
  unfold slotDiags
  by_cases h1 : slotIdBad s <;> by_cases h2 : multiChildBad s <;>
    by_cases h3 : childLabelBad s <;> simp [h1, h2, h3]

theorem missingSlotId_mem_slotDiags (i j : Nat) (s : VElem) :
    Diag.missingSlotId i ∈ slotDiags j s ↔ i = j ∧ slotIdBad s = true := by
  unfold slotDiags
  by_cases h1 : slotIdBad s <;> by_cases h2 : multiChildBad s <;>
    by_cases h3 : childLabelBad s <;> simp [h1, h2, h3]

theorem multiChild_mem_slotDiags (i j : Nat) (s : VElem) :
    Diag.multiChild i ∈ slotDiags j s ↔ i = j ∧ multiChildBad s = true := by
  unfold slotDiags
  by_cases h1 : slotIdBad s <;> by_cases h2 : multiChildBad s <;>
    by_cases h3 : childLabelBad s <;> simp [h1, h2, h3]

theorem unlabeledChild_mem_slotDiags (i j : Nat) (s : VElem) :
    Diag.unlabeledChild i ∈ slotDiags j s ↔ i = j ∧ childLabelBad s = true := by
  unfold slotDiags
  by_cases h1 : slotIdBad s <;> by_cases h2 : multiChildBad s <;>
    by_cases h3 : childLabelBad s <;> simp [h1, h2, h3]

theorem validate_eq (root : VElem) :
    validate root =
      (!((slotEls root).length == 0) && (slotEls root).enum.all (fun p => slotOk p.2),
        (if (slotEls root).length == 0 then [Diag.noSlots] else []) ++
          (slotEls root).enum.flatMap (fun p => slotDiags p.1 p.2)) := by
  unfold validate
  by_cases h0 : ((slotEls root).length == 0) = true
  · rw [if_pos h0, if_pos h0, validate_foldl]
    simp [h0]
  · rw [if_neg h0, if_neg h0, validate_foldl]
    simp [(by simpa using h0 : ¬(slotEls root).length = 0)]

theorem slotOk_iff (s : VElem) :
    slotOk s = true ↔
      ((getAttr s "swapySlot").getD "" ≠ "" ∧ s.childList.length ≤ 1 ∧
        ∀ c ∈ s.childList, (getAttr c "swapyItem").getD "" ≠ "") := by
  unfold slotOk slotIdBad multiChildBad childLabelBad
  cases hc : s.childList with
  | nil => simp [hc]
  | cons c rest =>
    cases rest with
    | nil => simp [hc]
    | cons c2 r2 => simp [hc]

/-- C4: validation succeeds exactly on markups with at least one slot in
which every slot has a non-empty slot id, at most one direct child element,
and any present direct child carries a non-empty item id; each violated rule
yields its diagnostic (the zero-slot rule globally, the three per-slot rules
per offending slot occurrence), and all violations over the whole subtree are
reflected in the returned diagnostic list - there is no early exit. -/
theorem validate_characterization (root : VElem) :
    ((validate root).1 = true ↔ specValidMarkup root) ∧
      (Diag.noSlots ∈ (validate root).2 ↔ slotEls root = []) ∧
        ∀ i s, (i, s) ∈ (slotEls root).enum →
          ((Diag.missingSlotId i ∈ (validate root).2 ↔ (getAttr s "swapySlot").getD "" = "") ∧
            (Diag.multiChild i ∈ (validate root).2 ↔ s.childList.length > 1) ∧
              (Diag.unlabeledChild i ∈ (validate root).2 ↔
                ∃ c, s.childList.head? = some c ∧ (getAttr c "swapyItem").getD "" = "")) := by
  rw [validate_eq]
  refine ⟨?_, ?_, ?_⟩
  · show (_ && _) = true ↔ _
    rw [Bool.and_eq_true]
    unfold specValidMarkup
    rw [show (slotEls root).enum = (slotEls root).enumFrom 0 from rfl, all_enumFrom]
    constructor
    · rintro ⟨hlen, hall⟩
      refine ⟨by simpa [List.length_eq_zero] using hlen, ?_⟩
      intro s hs
      exact (slotOk_iff s).mp (List.all_eq_true.mp hall s hs)
    · rintro ⟨hne, hall⟩
      refine ⟨by simpa [List.length_eq_zero] using hne, ?_⟩
      exact List.all_eq_true.mpr fun s hs => (slotOk_iff s).mpr (hall s hs)
  · show Diag.noSlots ∈ _ ++ _ ↔ _
    rw [List.mem_append]
    constructor
    · rintro (hmem | hmem)
      · by_cases h0 : ((slotEls root).length == 0) = true
        · exact List.length_eq_zero.mp (by simpa using h0)
        · rw [if_neg h0] at hmem
          simp at hmem
      · rcases List.mem_flatMap.mp hmem with ⟨p, _, hp⟩
        exact absurd hp (noSlots_not_mem_slotDiags p.1 p.2)
    · intro hnil
      left
      rw [if_pos (by simp [hnil])]
      simp
  · intro i s hmem
    have henum := hmem
    have hhead : ∀ d : Diag, d ∈ (if (slotEls root).length == 0 then [Diag.noSlots] else []) →
        d = Diag.noSlots := by
      intro d hd
      by_cases h0 : ((slotEls root).length == 0) = true
      · rw [if_pos h0] at hd; simpa using hd
      · rw [if_neg h0] at hd; simp at hd
    refine ⟨?_, ?_, ?_⟩
    · rw [List.mem_append]
      constructor
      · rintro (hd | hd)
        · exact absurd (hhead _ hd) (by simp)
        · rcases List.mem_flatMap.mp hd with ⟨p, hpmem, hp⟩
          rcases (missingSlotId_mem_slotDiags i p.1 p.2).mp hp with ⟨rfl, hbad⟩
          have : p.2 = s := enum_snd_unique (by simpa using hpmem) henum
          rw [this] at hbad
          simpa [slotIdBad] using hbad
      · intro hbad
        right
        refine List.mem_flatMap.mpr ⟨(i, s), henum, ?_⟩
        exact (missingSlotId_mem_slotDiags i i s).mpr ⟨rfl, by simpa [slotIdBad] using hbad⟩
    · rw [List.mem_append]
      constructor
      · rintro (hd | hd)
        · exact absurd (hhead _ hd) (by simp)
        · rcases List.mem_flatMap.mp hd with ⟨p, hpmem, hp⟩
          rcases (multiChild_mem_slotDiags i p.1 p.2).mp hp with ⟨rfl, hbad⟩
          have : p.2 = s := enum_snd_unique (by simpa using hpmem) henum
          rw [this] at hbad
          simpa [multiChildBad] using hbad
      · intro hbad
        right
        refine List.mem_flatMap.mpr ⟨(i, s), henum, ?_⟩
        exact (multiChild_mem_slotDiags i i s).mpr ⟨rfl, by simpa [multiChildBad] using hbad⟩
    · rw [List.mem_append]
      constructor
      · rintro (hd | hd)
        · exact absurd (hhead _ hd) (by simp)
        · rcases List.mem_flatMap.mp hd with ⟨p, hpmem, hp⟩
          rcases (unlabeledChild_mem_slotDiags i p.1 p.2).mp hp with ⟨rfl, hbad⟩
          have : p.2 = s := enum_snd_unique (by simpa using hpmem) henum
          rw [this] at hbad
          unfold childLabelBad at hbad
          cases hc : s.childList.head? with
          | none => rw [hc] at hbad; simp at hbad
          | some c =>
            rw [hc] at hbad
            exact ⟨c, rfl, by simpa using hbad⟩
      · rintro ⟨c, hc, hbad⟩
        right
        refine List.mem_flatMap.mpr ⟨(i, s), henum, ?_⟩
        refine (unlabeledChild_mem_slotDiags i i s).mpr ⟨rfl, ?_⟩
        unfold childLabelBad
        rw [hc]
        simpa using hbad

/-! ### Theorems: construction -/

/-- C5: createSwapy throws when the root argument is absent, and throws
after validation reports a violation; in the invalid-structure case it aborts
before any tagging occurs, so the tree is returned exactly as it was (no
attribute stamped) and no instance value is produced - only an error. -/
theorem createSwapy_failure_modes (u : UserConfig) (freshKey : String) (r : VElem)
    (hbad : (validate r).1 = false) :
    createSwapy none u freshKey
        = (none, Except.error
            "Cannot create a Swapy instance because the element you provided does not exist on the page!") ∧
      createSwapy (some r) u freshKey
        = (some r, Except.error
            "Cannot create a Swapy instance because your HTML structure is invalid. Fix all above errors and then try!") := by
  refine ⟨rfl, ?_⟩
  simp [createSwapy, hbad]

/-- Witness for createSwapy_failure_modes: a root with zero slots fails
validation; construction with it returns the tree untouched plus the
invalid-structure error, and construction with an absent root returns the
missing-root error. -/
theorem createSwapy_failure_modes_witness :
    createSwapy none ⟨none, none⟩ "key1"
        = (none, Except.error
            "Cannot create a Swapy instance because the element you provided does not exist on the page!") ∧
      createSwapy (some (VElem.mk 0 [] .nil)) ⟨none, none⟩ "key1"
        = (some (VElem.mk 0 [] .nil), Except.error
            "Cannot create a Swapy instance because your HTML structure is invalid. Fix all above errors and then try!") :=
  createSwapy_failure_modes ⟨none, none⟩ "key1" (VElem.mk 0 [] .nil) (by decide)

/-! ### Theorems: the live-tree watcher -/

theorem mapSet_idem {β : Type} (d : List (String × β)) (k : String) (v : β) :
    mapSet (mapSet d k v) k v = mapSet d k v := by
  unfold mapSet
  by_cases h : d.any (fun p => p.1 == k) = true
  · rw [if_pos h]
    have hany2 : ((d.map (fun p => if p.1 == k then (k, v) else p)).any
        (fun p => p.1 == k)) = true := by
      rcases List.any_eq_true.mp h with ⟨p, hp, hpk⟩
      exact List.any_eq_true.mpr
        ⟨(k, v), List.mem_map.mpr ⟨p, hp, by simp [hpk]⟩, by simp⟩
    rw [if_pos hany2, List.map_map]
    refine List.map_congr_left ?_
    intro p _
    by_cases hpk : p.1 == k <;> simp [hpk, Function.comp]
  · rw [if_neg h]
    have hnone : ∀ p ∈ d, ¬(p.1 == k) = true := by
      intro p hp hpk
      exact h (List.any_eq_true.mpr ⟨p, hp, hpk⟩)
    have hany2 : ((d ++ [(k, v)]).any (fun p => p.1 == k)) = true :=
      List.any_eq_true.mpr ⟨(k, v), by simp, by simp⟩
    rw [if_pos hany2, List.map_append]
    have h1 : d.map (fun p => if p.1 == k then (k, v) else p) = d := by
      have hmap := List.map_congr_left (l := d)
        (f := fun p : String × β => if p.1 == k then (k, v) else p) (g := id)
        (fun p hp => by simp [hnone p hp])
      rw [hmap, List.map_id]
    rw [h1]
    simp

theorem foldl_mapSet_const (a : Stamp) (d0 : List (String × String)) :
    ∀ l : List Stamp, (∀ s ∈ l, s = a) → l ≠ [] →
      l.foldl (fun acc s => mapSet acc s.2.1 s.2.2) d0 = mapSet d0 a.2.1 a.2.2 := by
  intro l
  induction l generalizing d0 with
  | nil => intro _ hne; exact absurd rfl hne
  | cons s rest ih =>
    intro hall _
    have hsa : s = a := hall s (by simp)
    subst hsa
    cases hrest : rest with
    | nil => subst hrest; simp
    | cons r2 rr =>
      subst hrest
      rw [List.foldl_cons]
      rw [ih (mapSet d0 s.2.1 s.2.2) (fun q hq => hall q (List.mem_cons_of_mem _ hq)) (by simp)]
      exact mapSet_idem d0 s.2.1 s.2.2


theorem datasetAtF_setAttrAtF : ∀ (l : VForest) (x y : Nat) (k v : String),
    datasetAtF (setAttrAtF l x k v) y =
      if y = x then (datasetAtF l y).map (fun d => mapSet d k v)
      else datasetAtF l y
  | .nil, x, y, k, v => by
    by_cases h : y = x <;> simp [setAttrAtF, datasetAtF, h]
  | .cons (.mk i d cs) rest, x, y, k, v => by
    have ihcs := datasetAtF_setAttrAtF cs x y k v
    have ihrest := datasetAtF_setAttrAtF rest x y k v
    by_cases hiy : i = y
    · subst hiy
      by_cases hyx : i = x
      · subst hyx
        simp [setAttrAtF, datasetAtF]
      · have hb : (i == x) = false := by simpa using hyx
        simp [setAttrAtF, datasetAtF, hb, hyx]
    · have hb : (i == y) = false := by simpa using fun hh : i = y => hiy hh
      by_cases hyx : y = x
      · subst hyx
        cases hcs : datasetAtF cs y with
        | some r =>
          simp [setAttrAtF, datasetAtF, hb, ihcs, hcs]
        | none =>
          simp [setAttrAtF, datasetAtF, hb, ihcs, ihrest, hcs]
      · cases hcs : datasetAtF cs y with
        | some r =>
          simp [setAttrAtF, datasetAtF, hb, ihcs, hcs, hyx]
        | none =>
          simp [setAttrAtF, datasetAtF, hb, ihcs, ihrest, hcs, hyx]

theorem setAttrAt_eid (t : VElem) (x : Nat) (k v : String) :
    (setAttrAt t x k v).eid = t.eid := rfl

theorem setAttrAt_dataset (t : VElem) (x : Nat) (k v : String) :
    (setAttrAt t x k v).dataset = t.dataset := rfl

theorem datasetAt_setAttrAt (t : VElem) (x y : Nat) (k v : String) :
    datasetAt (setAttrAt t x k v) y =
      if y = x then (datasetAt t y).map (fun d => mapSet d k v)
      else datasetAt t y := by
  unfold datasetAt setAttrAt
  exact datasetAtF_setAttrAtF t.children x y k v

theorem applyStamps_eid (l : List Stamp) : ∀ t : VElem, (applyStamps t l).eid = t.eid := by
  induction l with
  | nil => intro t; rfl
  | cons s rest ih =>
    intro t
    rw [applyStamps, List.foldl_cons]
    exact (ih (setAttrAt t s.1 s.2.1 s.2.2)).trans rfl

theorem applyStamps_dataset (l : List Stamp) :
    ∀ t : VElem, (applyStamps t l).dataset = t.dataset := by
  induction l with
  | nil => intro t; rfl
  | cons s rest ih =>
    intro t
    rw [applyStamps, List.foldl_cons]
    exact (ih (setAttrAt t s.1 s.2.1 s.2.2)).trans rfl

theorem datasetAt_applyStamps (l : List Stamp) :
    ∀ (t : VElem) (y : Nat),
      datasetAt (applyStamps t l) y =
        (datasetAt t y).map
          (fun d0 => (l.filter (fun s => s.1 == y)).foldl
            (fun acc s => mapSet acc s.2.1 s.2.2) d0) := by
  induction l with
  | nil =>
    intro t y
    cases h : datasetAt t y <;> simp [applyStamps, h]
  | cons s rest ih =>
    intro t y
    rw [applyStamps, List.foldl_cons]
    rw [show List.foldl (fun acc q => setAttrAt acc q.1 q.2.1 q.2.2)
        (setAttrAt t s.1 s.2.1 s.2.2) rest
      = applyStamps (setAttrAt t s.1 s.2.1 s.2.2) rest from rfl]
    rw [ih (setAttrAt t s.1 s.2.1 s.2.2) y, datasetAt_setAttrAt]
    by_cases hy : y = s.1
    · have hb : (s.1 == y) = true := by simpa using hy.symm
      rw [if_pos hy]
      cases h : datasetAt t y <;> simp [hb, h]
    · have hb : (s.1 == y) = false := by simpa using fun hh : s.1 = y => hy hh.symm
      rw [if_neg hy]
      cases h : datasetAt t y <;> simp [hb, h]

theorem tagItem_eq_stamps (t item : VElem) :
    tagItem t item = applyStamps t (stampsOfTag item) := by
  unfold tagItem stampsOfTag applyStamps
  rw [List.foldl_cons, List.foldl_cons, List.foldl_append, List.foldl_append,
    List.foldl_map, List.foldl_map]
  cases handleEidOf item <;> simp

theorem foldl_tagItem_eq (items : List VElem) :
    ∀ root : VElem, items.foldl tagItem root = applyStamps root (items.flatMap stampsOfTag) := by
  induction items with
  | nil => intro root; rfl
  | cons item rest ih =>
    intro root
    rw [List.foldl_cons, List.flatMap_cons, tagItem_eq_stamps, ih]
    unfold applyStamps
    rw [List.foldl_append]

theorem desc_trans : ∀ (l : VForest) (a : VElem), a ∈ descF l →
    ∀ b ∈ descF a.children, b ∈ descF l
  | .nil, a, ha => by simp [descF] at ha
  | .cons (.mk i d cs) rest, a, ha => by
    intro b hb
    rw [descF] at ha ⊢
    rcases List.mem_cons.mp ha with rfl | hmem
    · exact List.mem_cons_of_mem _ (List.mem_append_left _ hb)
    · rcases List.mem_append.mp hmem with h1 | h2
      · exact List.mem_cons_of_mem _ (List.mem_append_left _ (desc_trans cs a h1 b hb))
      · exact List.mem_cons_of_mem _ (List.mem_append_right _ (desc_trans rest a h2 b hb))

theorem datasetAtF_mem : ∀ (l : VForest) (y : Nat) (d : List (String × String)),
    datasetAtF l y = some d → ∃ n ∈ descF l, n.eid = y ∧ n.dataset = d
  | .nil, y, d => by simp [datasetAtF]
  | .cons (.mk i dd cs) rest, y, d => by
    intro h
    rw [datasetAtF] at h
    by_cases hiy : (i == y) = true
    · rw [if_pos hiy] at h
      exact ⟨.mk i dd cs, by rw [descF]; exact List.mem_cons_self _ _,
        by simpa using hiy, by simpa [VElem.dataset] using h⟩
    · rw [if_neg hiy] at h
      cases hcs : datasetAtF cs y with
      | some r =>
        rw [hcs] at h
        obtain ⟨n, hn, hny, hnd⟩ := datasetAtF_mem cs y r hcs
        have hrd : r = d := by simpa using h
        exact ⟨n, by rw [descF]; exact List.mem_cons_of_mem _ (List.mem_append_left _ hn),
          hny, hrd ▸ hnd⟩
      | none =>
        rw [hcs] at h
        obtain ⟨n, hn, hny, hnd⟩ := datasetAtF_mem rest y d h
        exact ⟨n, by rw [descF]; exact List.mem_cons_of_mem _ (List.mem_append_right _ hn),
          hny, hnd⟩

theorem datasetAtF_of_mem_nodup : ∀ l : VForest,
    ((descF l).map VElem.eid).Nodup → ∀ e ∈ descF l, datasetAtF l e.eid = some e.dataset
  | .nil => by intro _ e he; simp [descF] at he
  | .cons (.mk i d cs) rest => by
    intro hnd e he
    rw [descF] at he hnd
    rw [datasetAtF]
    rw [List.map_cons, List.nodup_cons, List.map_append, List.nodup_append] at hnd
    obtain ⟨hhead, hndcs, hndrest, hdisj⟩ := hnd
    rcases List.mem_cons.mp he with rfl | hmem
    · simp [VElem.eid, VElem.dataset]
    · rcases List.mem_append.mp hmem with h1 | h2
      · have hne : (i == e.eid) = false := by
          refine (Bool.eq_false_iff).mpr ?_
          intro hb
          have hieq : i = e.eid := by simpa using hb
          refine hhead (List.mem_append_left _ ?_)
          rw [hieq]
          exact List.mem_map.mpr ⟨e, h1, rfl⟩
        rw [if_neg (by simp [hne])]
        rw [datasetAtF_of_mem_nodup cs hndcs e h1]
      · have hne : (i == e.eid) = false := by
          refine (Bool.eq_false_iff).mpr ?_
          intro hb
          have hieq : i = e.eid := by simpa using hb
          refine hhead (List.mem_append_right _ ?_)
          rw [hieq]
          exact List.mem_map.mpr ⟨e, h2, rfl⟩
        rw [if_neg (by simp [hne])]
        cases hcs : datasetAtF cs e.eid with
        | some r =>
          obtain ⟨n, hn, hny, _⟩ := datasetAtF_mem cs e.eid r hcs
          exact absurd (List.mem_map_of_mem VElem.eid h2)
            (hdisj (hny ▸ List.mem_map_of_mem VElem.eid hn))
        | none => exact datasetAtF_of_mem_nodup rest hndrest e h2

theorem desc_eid_inj (l : VForest) (hnd : ((descF l).map VElem.eid).Nodup)
    {a b : VElem} (ha : a ∈ descF l) (hb : b ∈ descF l) (heid : a.eid = b.eid) : a = b :=
  List.inj_on_of_nodup_map hnd ha hb heid

theorem handleEidOf_src (item : VElem) (h : Nat) (hh : handleEidOf item = some h) :
    ∃ hn ∈ descF item.children, hasAttr hn "swapyHandle" = true ∧ hn.eid = h := by
  unfold handleEidOf at hh
  cases hd : ((descF item.children).filter (fun e => hasAttr e "swapyHandle")).head? with
  | none => rw [hd] at hh; simp at hh
  | some hn =>
    rw [hd] at hh
    obtain ⟨ys, hys⟩ := List.head?_eq_some_iff.mp hd
    have hmem : hn ∈ (descF item.children).filter (fun e => hasAttr e "swapyHandle") := by
      rw [hys]; exact List.mem_cons_self _ _
    rcases List.mem_filter.mp hmem with ⟨hm, hp⟩
    exact ⟨hn, hm, hp, by simpa using hh⟩

theorem textEidsOf_src (item : VElem) (x : Nat) (hx : x ∈ textEidsOf item) :
    ∃ tn ∈ descF item.children, hasAttr tn "swapyText" = true ∧ tn.eid = x := by
  unfold textEidsOf at hx
  rcases List.mem_map.mp hx with ⟨tn, htn, rfl⟩
  rcases List.mem_filter.mp htn with ⟨hmem, hprop⟩
  exact ⟨tn, hmem, hprop, rfl⟩

theorem exclEidsOf_src (item : VElem) (x : Nat) (hx : x ∈ exclEidsOf item) :
    ∃ tn ∈ descF item.children, hasAttr tn "swapyExclude" = true ∧ tn.eid = x := by
  unfold exclEidsOf at hx
  rcases List.mem_map.mp hx with ⟨tn, htn, rfl⟩
  rcases List.mem_filter.mp htn with ⟨hmem, hprop⟩
  exact ⟨tn, hmem, hprop, rfl⟩

theorem untagged_spec (root : VElem) (e : VElem) (he : e ∈ untaggedItems root) :
    e ∈ descF root.children ∧ hasAttr e "swapyItem" = true ∧ hasAttr e "velView" = false := by
  rcases List.mem_filter.mp he with ⟨hmem, hp⟩
  rw [Bool.and_eq_true, Bool.not_eq_true'] at hp
  exact ⟨hmem, hp.1, hp.2⟩

/-- The tail of stampsOfTag item (every stamp after the two item stamps)
always targets a descendant of the item carrying the respective marker. -/
theorem tail_targets (root : VElem) (item : VElem) (hmem : item ∈ descF root.children) :
    ∀ s ∈ ((match handleEidOf item with
        | some h => [((h : Nat), "velView", "handle")]
        | none => []) ++
        (textEidsOf item).map (fun x => (x, "velLayoutPosition", "")) ++
          (exclEidsOf item).map (fun x => (x, "velIgnore", ""))),
      ∃ m ∈ descF root.children, s.1 = m.eid ∧
        ((hasAttr m "swapyHandle" = true ∧ s = (m.eid, "velView", "handle")) ∨
          (hasAttr m "swapyText" = true ∧ s = (m.eid, "velLayoutPosition", "")) ∨
            (hasAttr m "swapyExclude" = true ∧ s = (m.eid, "velIgnore", ""))) := by
  intro s hs
  rw [List.append_assoc] at hs
  rcases List.mem_append.mp hs with hh | hte
  · cases hhe : handleEidOf item with
    | none => rw [hhe] at hh; simp at hh
    | some h =>
      rw [hhe] at hh
      have hseq : s = (h, "velView", "handle") := by simpa using hh
      obtain ⟨hn, hnm, hnp, hne⟩ := handleEidOf_src item h hhe
      refine ⟨hn, desc_trans root.children item hmem hn hnm, by rw [hseq, hne], ?_⟩
      exact Or.inl ⟨hnp, by rw [hseq, hne]⟩
  · rcases List.mem_append.mp hte with ht | hx
    · rcases List.mem_map.mp ht with ⟨x, hxm, rfl⟩
      obtain ⟨tn, tnm, tnp, tne⟩ := textEidsOf_src item x hxm
      refine ⟨tn, desc_trans root.children item hmem tn tnm, by simp [tne], ?_⟩
      exact Or.inr (Or.inl ⟨tnp, by simp [tne]⟩)
    · rcases List.mem_map.mp hx with ⟨x, hxm, rfl⟩
      obtain ⟨tn, tnm, tnp, tne⟩ := exclEidsOf_src item x hxm
      refine ⟨tn, desc_trans root.children item hmem tn tnm, by simp [tne], ?_⟩
      exact Or.inr (Or.inr ⟨tnp, by simp [tne]⟩)

/-- A stamp of any item's tag that targets an item-marked node is one of the
two item stamps of that very node. -/
theorem item_stamps (root : VElem)
    (hnd : ((descF root.children).map VElem.eid).Nodup) (hdisj : markersDisjoint root)
    (item : VElem) (hitem : item ∈ descF root.children)
    (n : VElem) (hn : n ∈ descF root.children) (hnI : hasAttr n "swapyItem" = true) :
    ∀ s ∈ stampsOfTag item, s.1 = n.eid →
      item = n ∧ (s = (n.eid, "velView", "item") ∨
        s = (n.eid, "velLayoutId", (getAttr n "swapyItem").getD "")) := by
  intro s hs htgt
  unfold stampsOfTag at hs
  rcases List.mem_cons.mp hs with rfl | hs
  · have hin : item = n := desc_eid_inj _ hnd hitem hn (by simpa using htgt)
    subst hin
    exact ⟨rfl, Or.inl rfl⟩
  · rcases List.mem_cons.mp hs with rfl | hs
    · have hin : item = n := desc_eid_inj _ hnd hitem hn (by simpa using htgt)
      subst hin
      exact ⟨rfl, Or.inr rfl⟩
    · obtain ⟨m, hm, hsm, hcase⟩ := tail_targets root item hitem s hs
      have hmn : m = n := desc_eid_inj _ hnd hm hn (hsm.symm.trans htgt)
      subst hmn
      rcases hcase with ⟨hH, _⟩ | ⟨hT, _⟩ | ⟨hX, _⟩
      · exact absurd hH (by simp [((hdisj m hm).1 hnI).1])
      · exact absurd hT (by simp [((hdisj m hm).1 hnI).2.1])
      · exact absurd hX (by simp [((hdisj m hm).1 hnI).2.2])

/-- A stamp of any item's tag that targets a handle-marked node sets the view
marker to handle. -/
theorem handle_stamps (root : VElem)
    (hnd : ((descF root.children).map VElem.eid).Nodup) (hdisj : markersDisjoint root)
    (item : VElem) (hitem : item ∈ descF root.children)
    (hitemMark : hasAttr item "swapyItem" = true)
    (n : VElem) (hn : n ∈ descF root.children) (hnH : hasAttr n "swapyHandle" = true) :
    ∀ s ∈ stampsOfTag item, s.1 = n.eid → s = (n.eid, "velView", "handle") := by
  intro s hs htgt
  unfold stampsOfTag at hs
  rcases List.mem_cons.mp hs with rfl | hs
  · have hin : item = n := desc_eid_inj _ hnd hitem hn (by simpa using htgt)
    subst hin
    exact absurd hnH (by simp [((hdisj item hitem).1 hitemMark).1])
  · rcases List.mem_cons.mp hs with rfl | hs
    · have hin : item = n := desc_eid_inj _ hnd hitem hn (by simpa using htgt)
      subst hin
      exact absurd hnH (by simp [((hdisj item hitem).1 hitemMark).1])
    · obtain ⟨m, hm, hsm, hcase⟩ := tail_targets root item hitem s hs
      have hmn : m = n := desc_eid_inj _ hnd hm hn (hsm.symm.trans htgt)
      subst hmn
      rcases hcase with ⟨_, hseq⟩ | ⟨hT, _⟩ | ⟨hX, _⟩
      · exact hseq
      · exact absurd hT (by simp [((hdisj m hm).2.1 hnH).1])
      · exact absurd hX (by simp [((hdisj m hm).2.1 hnH).2])

/-- A stamp of any item's tag that targets a text-marked node sets the empty
layout-position marker. -/
theorem text_stamps (root : VElem)
    (hnd : ((descF root.children).map VElem.eid).Nodup) (hdisj : markersDisjoint root)
    (item : VElem) (hitem : item ∈ descF root.children)
    (hitemMark : hasAttr item "swapyItem" = true)
    (n : VElem) (hn : n ∈ descF root.children) (hnT : hasAttr n "swapyText" = true) :
    ∀ s ∈ stampsOfTag item, s.1 = n.eid → s = (n.eid, "velLayoutPosition", "") := by
  intro s hs htgt
  unfold stampsOfTag at hs
  rcases List.mem_cons.mp hs with rfl | hs
  · have hin : item = n := desc_eid_inj _ hnd hitem hn (by simpa using htgt)
    subst hin
    exact absurd hnT (by simp [((hdisj item hitem).1 hitemMark).2.1])
  · rcases List.mem_cons.mp hs with rfl | hs
    · have hin : item = n := desc_eid_inj _ hnd hitem hn (by simpa using htgt)
      subst hin
      exact absurd hnT (by simp [((hdisj item hitem).1 hitemMark).2.1])
    · obtain ⟨m, hm, hsm, hcase⟩ := tail_targets root item hitem s hs
      have hmn : m = n := desc_eid_inj _ hnd hm hn (hsm.symm.trans htgt)
      subst hmn
      rcases hcase with ⟨hH, _⟩ | ⟨_, hseq⟩ | ⟨hX, _⟩
      · exact absurd hnT (by simp [((hdisj m hm).2.1 hH).1])
      · exact hseq
      · exact absurd hX (by simp [((hdisj m hm).2.2 hnT)])

/-- A stamp of any item's tag that targets an exclude-marked node sets the
empty ignore marker. -/
theorem excl_stamps (root : VElem)
    (hnd : ((descF root.children).map VElem.eid).Nodup) (hdisj : markersDisjoint root)
    (item : VElem) (hitem : item ∈ descF root.children)
    (hitemMark : hasAttr item "swapyItem" = true)
    (n : VElem) (hn : n ∈ descF root.children) (hnX : hasAttr n "swapyExclude" = true) :
    ∀ s ∈ stampsOfTag item, s.1 = n.eid → s = (n.eid, "velIgnore", "") := by
  intro s hs htgt
  unfold stampsOfTag at hs
  rcases List.mem_cons.mp hs with rfl | hs
  · have hin : item = n := desc_eid_inj _ hnd hitem hn (by simpa using htgt)
    subst hin
    exact absurd hnX (by simp [((hdisj item hitem).1 hitemMark).2.2])
  · rcases List.mem_cons.mp hs with rfl | hs
    · have hin : item = n := desc_eid_inj _ hnd hitem hn (by simpa using htgt)
      subst hin
      exact absurd hnX (by simp [((hdisj item hitem).1 hitemMark).2.2])
    · obtain ⟨m, hm, hsm, hcase⟩ := tail_targets root item hitem s hs
      have hmn : m = n := desc_eid_inj _ hnd hm hn (hsm.symm.trans htgt)
      subst hmn
      rcases hcase with ⟨hH, _⟩ | ⟨hT, _⟩ | ⟨_, hseq⟩
      · exact absurd hnX (by simp [((hdisj m hm).2.1 hH).2])
      · exact absurd hnX (by simp [((hdisj m hm).2.2 hT)])
      · exact hseq

/-- The stamps an item's own tag directs at the item itself: exactly the item
view stamp followed by the layout id stamp. -/
theorem filter_stamps_self (root : VElem)
    (hnd : ((descF root.children).map VElem.eid).Nodup) (hdisj : markersDisjoint root)
    (e : VElem) (he : e ∈ descF root.children) (heI : hasAttr e "swapyItem" = true) :
    (stampsOfTag e).filter (fun s => s.1 == e.eid)
      = [(e.eid, "velView", "item"),
          (e.eid, "velLayoutId", (getAttr e "swapyItem").getD "")] := by
  have htail : ∀ s ∈ ((match handleEidOf e with
      | some h => [((h : Nat), "velView", "handle")]
      | none => []) ++
      (textEidsOf e).map (fun x => (x, "velLayoutPosition", "")) ++
        (exclEidsOf e).map (fun x => (x, "velIgnore", ""))),
      ¬((s.1 == e.eid) = true) := by
    intro s hs hb
    obtain ⟨m, hm, hsm, hcase⟩ := tail_targets root e he s hs
    have hme : m = e := desc_eid_inj _ hnd hm he (hsm.symm.trans (by simpa using hb))
    subst hme
    rcases hcase with ⟨hH, _⟩ | ⟨hT, _⟩ | ⟨hX, _⟩
    · exact absurd hH (by simp [((hdisj m hm).1 heI).1])
    · exact absurd hT (by simp [((hdisj m hm).1 heI).2.1])
    · exact absurd hX (by simp [((hdisj m hm).1 heI).2.2])
  unfold stampsOfTag
  rw [List.filter_cons_of_pos (by simp), List.filter_cons_of_pos (by simp),
    List.filter_eq_nil_iff.mpr htail]

theorem untagged_nodup (root : VElem)
    (hnd : ((descF root.children).map VElem.eid).Nodup) :
    ((untaggedItems root).map VElem.eid).Nodup :=
  List.Nodup.sublist ((List.filter_sublist _).map VElem.eid) hnd

/-- All stamps of the resync directed at one node are a single constant stamp
occurring at least once: the node ends with exactly that attribute set. -/
theorem datasetAt_resync_const (root : VElem)
    (hnd : ((descF root.children).map VElem.eid).Nodup)
    (a : Stamp) (n : VElem) (hn : n ∈ descF root.children)
    (hall : ∀ item' ∈ untaggedItems root, ∀ s ∈ stampsOfTag item', s.1 = n.eid → s = a)
    (hex : ∃ item' ∈ untaggedItems root, a ∈ stampsOfTag item')
    (ha1 : a.1 = n.eid) :
    datasetAt ((untaggedItems root).foldl tagItem root) n.eid
      = some (mapSet n.dataset a.2.1 a.2.2) := by
  rw [foldl_tagItem_eq, datasetAt_applyStamps]
  rw [show datasetAt root n.eid = some n.dataset from datasetAtF_of_mem_nodup _ hnd n hn]
  have hallf : ∀ s ∈ ((untaggedItems root).flatMap stampsOfTag).filter
      (fun s => s.1 == n.eid), s = a := by
    intro s hs
    rcases List.mem_filter.mp hs with ⟨hmem, hp⟩
    rcases List.mem_flatMap.mp hmem with ⟨item', hm', hsi⟩
    exact hall item' hm' s hsi (by simpa using hp)
  have hne : ((untaggedItems root).flatMap stampsOfTag).filter
      (fun s => s.1 == n.eid) ≠ [] := by
    obtain ⟨item', hm', hsa⟩ := hex
    have hmem2 : a ∈ ((untaggedItems root).flatMap stampsOfTag).filter
        (fun s => s.1 == n.eid) :=
      List.mem_filter.mpr ⟨List.mem_flatMap.mpr ⟨item', hm', hsa⟩, by simp [ha1]⟩
    exact List.ne_nil_of_mem hmem2
  exact congrArg some (foldl_mapSet_const a n.dataset _ hallf hne)

/-- C8: on a mutation batch with a child-list change, resyncItems runs:
every item-marked element lacking the vel-view marker is tagged with the item
view and its layout id, its first handle descendant is view-marked handle and
its text/exclude descendants get their empty markers; elements already
item-tagged and the root's own dataset are untouched; both registries are
rebuilt from scratch exactly when at least one item was newly tagged, and a
batch without a child-list change, or one finding no untagged item, leaves
the whole state unchanged.  Hypotheses: element identities are unique in the
tree and no element carries two of the four swapy markers. -/
theorem mutation_watcher_contract (st : TreeState) (muts : List MutationKind)
    (hnd : ((descF st.root.children).map VElem.eid).Nodup)
    (hdisj : markersDisjoint st.root) :
    (muts.any (fun mu => mu == MutationKind.childList) = false →
      observerCallback st muts = st) ∧
    ((resyncItems st.root).2 = true ↔ untaggedItems st.root ≠ []) ∧
    (untaggedItems st.root = [] → observerCallback st muts = st) ∧
    (muts.any (fun mu => mu == MutationKind.childList) = true →
      untaggedItems st.root ≠ [] →
      observerCallback st muts =
        ⟨(resyncItems st.root).1, createSlotElMap (resyncItems st.root).1,
          createItemElMap (resyncItems st.root).1⟩) ∧
    ((resyncItems st.root).1.eid = st.root.eid ∧
      (resyncItems st.root).1.dataset = st.root.dataset) ∧
    (∀ e ∈ untaggedItems st.root,
      datasetAt (resyncItems st.root).1 e.eid
        = some (mapSet (mapSet e.dataset "velView" "item") "velLayoutId"
            ((getAttr e "swapyItem").getD ""))) ∧
    (∀ e ∈ descF st.root.children, hasAttr e "swapyItem" = true →
      hasAttr e "velView" = true →
      datasetAt (resyncItems st.root).1 e.eid = some e.dataset) ∧
    (∀ e ∈ untaggedItems st.root, ∀ hEid, handleEidOf e = some hEid →
      ∀ hn ∈ descF st.root.children, hn.eid = hEid →
        datasetAt (resyncItems st.root).1 hEid
          = some (mapSet hn.dataset "velView" "handle")) ∧
    (∀ e ∈ untaggedItems st.root, ∀ x ∈ textEidsOf e,
      ∀ tn ∈ descF st.root.children, tn.eid = x →
        datasetAt (resyncItems st.root).1 x
          = some (mapSet tn.dataset "velLayoutPosition" "")) ∧
    (∀ e ∈ untaggedItems st.root, ∀ x ∈ exclEidsOf e,
      ∀ tn ∈ descF st.root.children, tn.eid = x →
        datasetAt (resyncItems st.root).1 x
          = some (mapSet tn.dataset "velIgnore" "")) := by
  refine ⟨?_, ?_, ?_, ?_, ?_, ?_, ?_, ?_, ?_, ?_⟩
  · intro h
    simp [observerCallback, h]
  · simp [resyncItems, List.length_pos]
  · intro h
    by_cases hcl : muts.any (fun mu => mu == MutationKind.childList) = true
    · simp [observerCallback, hcl, resyncItems, h]
    · have hcl' : (muts.any fun mu => mu == MutationKind.childList) = false :=
        Bool.eq_false_iff.mpr hcl
      simp [observerCallback, hcl']
  · intro hcl hne
    have hsnd : (resyncItems st.root).2 = true := by
      simp [resyncItems, List.length_pos, hne]
    simp only [observerCallback, hcl, if_true]
    rw [if_pos hsnd]
  · constructor
    · rw [show (resyncItems st.root).1 = (untaggedItems st.root).foldl tagItem st.root from rfl,
        foldl_tagItem_eq]
      exact applyStamps_eid _ st.root
    · rw [show (resyncItems st.root).1 = (untaggedItems st.root).foldl tagItem st.root from rfl,
        foldl_tagItem_eq]
      exact applyStamps_dataset _ st.root
  · intro e he
    obtain ⟨heDesc, heI, _⟩ := untagged_spec st.root e he
    rw [show (resyncItems st.root).1 = (untaggedItems st.root).foldl tagItem st.root from rfl,
      foldl_tagItem_eq, datasetAt_applyStamps]
    rw [show datasetAt st.root e.eid = some e.dataset from
      datasetAtF_of_mem_nodup _ hnd e heDesc]
    rw [List.filter_flatMap]
    obtain ⟨l1, l2, hsplit⟩ := List.append_of_mem he
    have hndu := untagged_nodup st.root hnd
    rw [hsplit, List.map_append, List.nodup_append] at hndu
    obtain ⟨hnd1, hnd2, hdisj12⟩ := hndu
    rw [List.map_cons, List.nodup_cons] at hnd2
    have hne1 : ∀ item' ∈ l1, item' ≠ e := by
      intro item' hm heq
      subst heq
      exact hdisj12 (List.mem_map.mpr ⟨item', hm, rfl⟩) (by simp)
    have hne2 : ∀ item' ∈ l2, item' ≠ e := by
      intro item' hm heq
      subst heq
      exact hnd2.1 (List.mem_map.mpr ⟨item', hm, rfl⟩)
    have hother : ∀ item' ∈ untaggedItems st.root, item' ≠ e →
        (stampsOfTag item').filter (fun s => s.1 == e.eid) = [] := by
      intro item' hm hnee
      refine List.filter_eq_nil_iff.mpr ?_
      intro s hs hb
      obtain ⟨hmem', _, _⟩ := untagged_spec st.root item' hm
      obtain ⟨heq, _⟩ :=
        item_stamps st.root hnd hdisj item' hmem' e heDesc heI s hs (by simpa using hb)
      exact hnee heq
    rw [hsplit, List.flatMap_append, List.flatMap_cons]
    have hl1 : l1.flatMap (fun a => (stampsOfTag a).filter (fun s => s.1 == e.eid)) = [] := by
      rw [List.flatMap_eq_nil_iff]
      intro item' hm
      exact hother item' (by rw [hsplit]; exact List.mem_append_left _ hm) (hne1 item' hm)
    have hl2 : l2.flatMap (fun a => (stampsOfTag a).filter (fun s => s.1 == e.eid)) = [] := by
      rw [List.flatMap_eq_nil_iff]
      intro item' hm
      exact hother item'
        (by rw [hsplit]; exact List.mem_append_right _ (List.mem_cons_of_mem _ hm))
        (hne2 item' hm)
    rw [hl1, hl2, filter_stamps_self st.root hnd hdisj e heDesc heI]
    rfl
  · intro e he heI hVel
    rw [show (resyncItems st.root).1 = (untaggedItems st.root).foldl tagItem st.root from rfl,
      foldl_tagItem_eq, datasetAt_applyStamps]
    rw [show datasetAt st.root e.eid = some e.dataset from
      datasetAtF_of_mem_nodup _ hnd e he]
    have hnil : ((untaggedItems st.root).flatMap stampsOfTag).filter
        (fun s => s.1 == e.eid) = [] := by
      refine List.filter_eq_nil_iff.mpr ?_
      intro s hs hb
      rcases List.mem_flatMap.mp hs with ⟨item', hm', hsi⟩
      obtain ⟨hmem', _, hVel'⟩ := untagged_spec st.root item' hm'
      obtain ⟨heq, _⟩ :=
        item_stamps st.root hnd hdisj item' hmem' e he heI s hsi (by simpa using hb)
      subst heq
      rw [hVel] at hVel'
      cases hVel'
    rw [hnil]
    rfl
  · intro e he hEid hh hn hnDesc hnEid
    obtain ⟨heDesc, heI, _⟩ := untagged_spec st.root e he
    obtain ⟨hn', hn'm, hn'H, hn'e⟩ := handleEidOf_src e hEid hh
    have hn'root : hn' ∈ descF st.root.children := desc_trans st.root.children e heDesc hn' hn'm
    have hnn : hn' = hn := desc_eid_inj _ hnd hn'root hnDesc (by rw [hn'e, hnEid])
    subst hnn
    subst hnEid
    have hs0 : ((hn'.eid : Nat), "velView", "handle") ∈ stampsOfTag e := by
      unfold stampsOfTag
      refine List.mem_cons_of_mem _ (List.mem_cons_of_mem _ ?_)
      refine List.mem_append_left _ (List.mem_append_left _ ?_)
      rw [hh, hn'e]
      exact List.mem_cons_self _ _
    refine datasetAt_resync_const st.root hnd ((hn'.eid : Nat), "velView", "handle")
      hn' hn'root ?_ ⟨e, he, hs0⟩ rfl
    intro item' hm' s hsi htg
    obtain ⟨hmem', hI', _⟩ := untagged_spec st.root item' hm'
    exact handle_stamps st.root hnd hdisj item' hmem' hI' hn' hn'root hn'H s hsi htg
  · intro e he x hx tn tnDesc tnEid
    obtain ⟨heDesc, heI, _⟩ := untagged_spec st.root e he
    obtain ⟨tn', tn'm, tn'T, tn'e⟩ := textEidsOf_src e x hx
    have tn'root : tn' ∈ descF st.root.children := desc_trans st.root.children e heDesc tn' tn'm
    have htn : tn' = tn := desc_eid_inj _ hnd tn'root tnDesc (by rw [tn'e, tnEid])
    subst htn
    subst tnEid
    have hs0 : ((tn'.eid : Nat), "velLayoutPosition", "") ∈ stampsOfTag e := by
      unfold stampsOfTag
      refine List.mem_cons_of_mem _ (List.mem_cons_of_mem _ ?_)
      refine List.mem_append_left _ (List.mem_append_right _ ?_)
      exact List.mem_map.mpr ⟨tn'.eid, tn'e ▸ hx, rfl⟩
    refine datasetAt_resync_const st.root hnd ((tn'.eid : Nat), "velLayoutPosition", "")
      tn' tn'root ?_ ⟨e, he, hs0⟩ rfl
    intro item' hm' s hsi htg
    obtain ⟨hmem', hI', _⟩ := untagged_spec st.root item' hm'
    exact text_stamps st.root hnd hdisj item' hmem' hI' tn' tn'root tn'T s hsi htg
  · intro e he x hx tn tnDesc tnEid
    obtain ⟨heDesc, heI, _⟩ := untagged_spec st.root e he
    obtain ⟨tn', tn'm, tn'X, tn'e⟩ := exclEidsOf_src e x hx
    have tn'root : tn' ∈ descF st.root.children := desc_trans st.root.children e heDesc tn' tn'm
    have htn : tn' = tn := desc_eid_inj _ hnd tn'root tnDesc (by rw [tn'e, tnEid])
    subst htn
    subst tnEid
    have hs0 : ((tn'.eid : Nat), "velIgnore", "") ∈ stampsOfTag e := by
      unfold stampsOfTag
      refine List.mem_cons_of_mem _ (List.mem_cons_of_mem _ ?_)
      refine List.mem_append_right _ ?_
      exact List.mem_map.mpr ⟨tn'.eid, tn'e ▸ hx, rfl⟩
    refine datasetAt_resync_const st.root hnd ((tn'.eid : Nat), "velIgnore", "")
      tn' tn'root ?_ ⟨e, he, hs0⟩ rfl
    intro item' hm' s hsi htg
    obtain ⟨hmem', hI', _⟩ := untagged_spec st.root item' hm'
    exact excl_stamps st.root hnd hdisj item' hmem' hI' tn' tn'root tn'X s hsi htg

/-- Witness for mutation_watcher_contract: a batch with a child-list record
on a tree holding one untagged item (with handle, text and excluded
descendants) next to an already-tagged item.  The untagged item is tagged,
its descendants get their markers, the tagged item keeps its dataset
verbatim, and both registries are rebuilt. -/
theorem mutation_watcher_contract_witness :
    ((resyncItems c8St.root).2 = true ↔ untaggedItems c8St.root ≠ []) ∧
      observerCallback c8St [MutationKind.other, MutationKind.childList]
        = ⟨(resyncItems c8St.root).1, createSlotElMap (resyncItems c8St.root).1,
            createItemElMap (resyncItems c8St.root).1⟩ ∧
        datasetAt (resyncItems c8St.root).1 4
          = some [("swapyItem", "b"), ("velView", "item"), ("velLayoutId", "b")] ∧
          datasetAt (resyncItems c8St.root).1 2
            = some [("swapyItem", "a"), ("velView", "item"), ("velLayoutId", "a")] ∧
            datasetAt (resyncItems c8St.root).1 5
              = some [("swapyHandle", ""), ("velView", "handle")] ∧
              datasetAt (resyncItems c8St.root).1 6
                = some [("swapyText", ""), ("velLayoutPosition", "")] ∧
                datasetAt (resyncItems c8St.root).1 7
                  = some [("swapyExclude", ""), ("velIgnore", "")] := by
  have T := mutation_watcher_contract c8St [MutationKind.other, MutationKind.childList]
    (by decide) (by unfold markersDisjoint; decide)
  have hmemB : c8ItemB ∈ untaggedItems c8St.root := List.mem_cons_self _ _
  have hdescA : c8ItemA ∈ descF c8St.root.children :=
    List.mem_cons_of_mem _ (List.mem_cons_self _ _)
  have hdescH : c8Handle ∈ descF c8St.root.children :=
    List.mem_cons_of_mem _ (List.mem_cons_of_mem _ (List.mem_cons_of_mem _
      (List.mem_cons_of_mem _ (List.mem_cons_self _ _))))
  have hdescT : c8Text ∈ descF c8St.root.children :=
    List.mem_cons_of_mem _ (List.mem_cons_of_mem _ (List.mem_cons_of_mem _
      (List.mem_cons_of_mem _ (List.mem_cons_of_mem _ (List.mem_cons_self _ _)))))
  have hdescX : c8Excl ∈ descF c8St.root.children :=
    List.mem_cons_of_mem _ (List.mem_cons_of_mem _ (List.mem_cons_of_mem _
      (List.mem_cons_of_mem _ (List.mem_cons_of_mem _ (List.mem_cons_of_mem _
        (List.mem_cons_self _ _))))))
  refine ⟨T.2.1, T.2.2.2.1 (by decide) (List.cons_ne_nil _ _), ?_, ?_, ?_, ?_, ?_⟩
  · exact (T.2.2.2.2.2.1 c8ItemB hmemB).trans (by decide)
  · exact T.2.2.2.2.2.2.1 c8ItemA hdescA rfl rfl
  · exact (T.2.2.2.2.2.2.2.1 c8ItemB hmemB 5 rfl c8Handle hdescH rfl).trans (by decide)
  · exact (T.2.2.2.2.2.2.2.2.1 c8ItemB hmemB 6 (by decide) c8Text hdescT rfl).trans (by decide)
  · exact (T.2.2.2.2.2.2.2.2.2 c8ItemB hmemB 7 (by decide) c8Excl hdescX rfl).trans (by decide)

end Swappy
